import Mathlib

/-!
# StepperTesting: single-axis stepper controller for the ATtiny841

A shallow embedding of `src/Atmel/main.c`.  The globals of the C program and
the few hardware registers it drives are the fields of `State`; every C
function that touches them is a Lean function on `State`; the two interrupt
handlers are functions that can be applied to any state.

Machine integers are natural numbers or integers with the wrap-around made
explicit: `uint8_t`/`uint16_t` values are `Nat`, `int16_t` values are `Int`,
and the places where the C code can leave the range reduce explicitly
(`toU16`, `wrap16`).

The numeric parser `serial0RecvNum` is a function of the bytes that arrive
on the serial line and of what the memory at its local buffer held before
the call; the library function `atoi` it ends with follows the C standard.

Two texts of the program are longer than the 48-byte buffer `strbuf` they are
copied into; `PRINTLN` stores the excess bytes in the globals that lie behind
the buffer.  Commands and handlers are indivisible steps, except that the
event `goServing` serves handlers inside `go`, between `sei()` and the
statement that switches the timer on.
-/

namespace StepperTesting

/-! ## Constants of the source -/

/-- Crystal frequency, `#define F_CPU 14745600`. -/
def F_CPU : Nat := 14745600

/-- Sense-line mask, `#define LIMITMASK 0b01110000`. -/
def LIMITMASK : Nat := 0b01110000

/-- Direction value, `#define FORWARD 1`. -/
def FORWARD : Nat := 1

/-- Direction value, `#define REVERSE 0`. -/
def REVERSE : Nat := 0

/-- Bit position of the LED on port B, `PORTB2`. -/
def LED_PIN : Nat := 2

/-- Bit position of the direction output on port A, `PORTA0`. -/
def DIR_PIN : Nat := 0

/-- Bit position of the step output on port A, `PORTA3`. -/
def STEP_PIN : Nat := 3

/-- Bit position of the driver enable (sleep) output on port A, `PORTA7`. -/
def SLEEP_PIN : Nat := 7

/-- Bit position of the forward-limit input on port A, `PINA4`. -/
def FLIMIT_PIN : Nat := 4

/-- Bit position of the home input on port A, `PINA5`. -/
def HOME_PIN : Nat := 5

/-- Bit position of the reverse-limit input on port A, `PINA6`. -/
def RLIMIT_PIN : Nat := 6

/-- Bit value, the avr-libc macro `_BV(bit)` is `1 << bit`. -/
def BV (bit : Nat) : Nat := 1 <<< bit

/-- Setting one bit of an 8-bit register, `REG |= _BV(bit)`. -/
def sbi (reg bit : Nat) : Nat := reg ||| BV bit

/-- Clearing one bit of an 8-bit register, `REG &= ~_BV(bit)`. -/
def cbi (reg bit : Nat) : Nat := reg &&& (0xFF - BV bit)

/-- Conversion of an `int16_t` to `uint16_t`, as in `nsteps = serial0RecvNum()`. -/
def toU16 (v : Int) : Nat := (v % 65536).toNat

/-- Two-complement reduction of an integer to the `int16_t` range: what the
16-bit add and subtract of the target leave in an `int16_t` after
`position++` and `position--`. -/
def wrap16 (v : Int) : Int := (v + 32768) % 65536 - 32768

/-- The `int16_t` range. -/
def InInt16 (v : Int) : Prop := -32768 ≤ v ∧ v ≤ 32767

instance (v : Int) : Decidable (InInt16 v) := by
  unfold InInt16; infer_instance

/-! ## State -/

/-- The globals of `main.c` and the registers the program writes.
`iflag` is the global interrupt enable bit of `SREG`, written by `cli()` and
`sei()`.  Two fields are instrumentation and correspond to no C variable:
`pulses` counts the pulses emitted on the step output, and `divZero` records
that a division with divisor zero has been evaluated. -/
structure State where
  direction : Nat
  f_timer : Nat
  stepsPerSec : Nat
  ticksPerStep : Nat
  nsteps : Nat
  oldpina : Nat
  newpina : Nat
  bufpina : Nat
  position : Int
  home : Int
  stepsDone : Nat
  stepsRequested : Nat
  PORTA : Nat
  PORTB : Nat
  TCCR1B : Nat
  OCR1A : Nat
  iflag : Bool
  pulses : Nat
  divZero : Bool
  deriving DecidableEq, Repr

/-- The pulse source is armed: the clock select bits of `TCCR1B` are not all
zero (the program only ever writes `0b00000000` and `0b00001100`). -/
def running (s : State) : Prop := s.TCCR1B ≠ 0

instance (s : State) : Decidable (running s) := by
  unfold running; infer_instance

/-- The driver enable output (`SLEEP_PIN` of port A) is high. -/
def driverOn (s : State) : Prop := s.PORTA &&& BV SLEEP_PIN ≠ 0

instance (s : State) : Decidable (driverOn s) := by
  unfold driverOn; infer_instance

/-- Unsigned division as the C code writes it.  With a zero divisor C leaves
the result undefined; the embedding takes the 16-bit value the target
delivers in that case as the parameter `dz` and raises the `divZero` mark. -/
def udiv (dz a b : Nat) : Nat × Bool :=
  if b = 0 then (dz % 65536, true) else (a / b, false)

/-! ## The texts and the scratch buffer -/

/-- Source `str00`. -/
def str00 : String := "\n\rCommands\n\r"

/-- Source `str01`. -/
def str01 : String := "irection: forward or reverse <f|r>: "

/-- Source `str02`. -/
def str02 : String := "\tdirection = "

/-- Source `str03`. -/
def str03 : String := "\td - motor direction, set to (f)orward or (r)everse\n\r"

/-- Source `str04`. -/
def str04 : String := "\n\rStatus\n\r"

/-- Source `str05`. -/
def str05 : String := "Stepper Motor Testing 2015-11-26\n\r"

/-- Source `str06`. -/
def str06 : String := "\t<spacebar> - Stop motor motion\n\r"

/-- Source `str07`. -/
def str07 : String := "\tS - print status\n\r"

/-- Source `str08`. -/
def str08 : String := "teps per second: "

/-- Source `str09`. -/
def str09 : String := "\tsteps per second = "

/-- Source `str10`. -/
def str10 : String := "\tticks (17.36 us each) per step = "

/-- Source `str11`. -/
def str11 : String := "\ts - steps per second (from 1 to 400)\n\r"

/-- Source `str12`. -/
def str12 : String := "steps: "

/-- Source `str13`. -/
def str13 : String := "\tnsteps requested = "

/-- Source `str14`. -/
def str14 : String := "\tsteps done = "

/-- Source `str15`. -/
def str15 : String := "\r\nError: steps per second is 0; no motion"

/-- Source `str16`. -/
def str16 : String := "urrent adjust -- set max current now, hit any key to exit"

/-- Source `str17`. -/
def str17 : String := "\tg - go (start motion)\n\r"

/-- Source `str18`. -/
def str18 : String := "\tn - number of steps\n\r"

/-- Source `str19`. -/
def str19 : String := " - unknown command"

/-- Source `str20`. -/
def str20 : String := "\tC - Current measurement mode\n\r"

/-- Source `str21`. -/
def str21 : String := "\tposition = "

/-- Source `str22`. -/
def str22 : String := "\thome = "

/-- The low byte of a 16-bit word replaced by the byte `b`. -/
def setLo (v b : Nat) : Nat := v / 256 % 256 * 256 + b % 256

/-- The high byte of a 16-bit word replaced by the byte `b`. -/
def setHi (v b : Nat) : Nat := b % 256 * 256 + v % 256

/-- One byte stored at offset `off` past the end of `strbuf`.  C leaves such
a store undefined; in the image avr-gcc builds from this source the globals
declared before `strbuf` lie behind it in memory, the last declared first and
each 16-bit word low byte first: `stepsRequested`, `stepsDone`, `home`,
`position`, `bufpina`, `newpina`, `oldpina`.  No text of the program reaches
beyond offset 9, and offsets after `oldpina` are not given here. -/
def poke (off b : Nat) (s : State) : State :=
  match off with
  | 0 => { s with stepsRequested := setLo s.stepsRequested b }
  | 1 => { s with stepsRequested := setHi s.stepsRequested b }
  | 2 => { s with stepsDone := setLo s.stepsDone b }
  | 3 => { s with stepsDone := setHi s.stepsDone b }
  | 4 => { s with home := wrap16 (setLo (toU16 s.home) b) }
  | 5 => { s with home := wrap16 (setHi (toU16 s.home) b) }
  | 6 => { s with position := wrap16 (setLo (toU16 s.position) b) }
  | 7 => { s with position := wrap16 (setHi (toU16 s.position) b) }
  | 8 => { s with bufpina := b % 256 }
  | 9 => { s with newpina := b % 256 }
  | 10 => { s with oldpina := b % 256 }
  | _ => s

/-- The bytes `bs` stored one after the other from offset `off` past the end
of `strbuf`. -/
def overrunAt (off : Nat) : List Nat → State → State
  | [], s => s
  | b :: bs, s => overrunAt (off + 1) bs (poke off b s)

/-- Source macro `PRINTLN(STRING)`: `strcpy_P(strbuf, STRING)`, then the text
is sent.  `strbuf` has 48 bytes, so the bytes of the text and of its
terminator after the 48th are stored past its end; the contents of `strbuf`
itself are read by nothing else and are not kept. -/
def PRINTLN (str : String) (s : State) : State :=
  overrunAt 0 ((str.toList.map Char.toNat ++ [0]).drop 48) s

/-- Source `printStatus`; the numbers it sends go through local buffers. -/
def printStatus (s : State) : State :=
  PRINTLN str14 (PRINTLN str10 (PRINTLN str02 (PRINTLN str09 (PRINTLN str13
    (PRINTLN str22 (PRINTLN str21 (PRINTLN str04 s)))))))

/-- Source `printCmdList`. -/
def printCmdList (s : State) : State :=
  PRINTLN str06 (PRINTLN str07 (PRINTLN str11 (PRINTLN str18 (PRINTLN str03
    (PRINTLN str17 (PRINTLN str20 (PRINTLN str00 s)))))))

/-! ## Functions of the source -/

/-- Source `stepMotor`: one pulse on the step output, then `stepsDone++`. -/
def stepMotor (s : State) : State :=
  { s with
    PORTA := cbi (sbi s.PORTA STEP_PIN) STEP_PIN
    pulses := s.pulses + 1
    stepsDone := (s.stepsDone + 1) % 65536 }

/-- Source `stopMotor`: `cli()`, driver enable low, timer off,
`stepsRequested = 0`. -/
def stopMotor (s : State) : State :=
  { s with
    iflag := false
    PORTA := cbi s.PORTA SLEEP_PIN
    TCCR1B := 0b00000000
    stepsRequested := 0 }

/-- Source `go`: timer off, `cli()`, load the motion parameters, driver enable
high, `sei()`, timer on in CTC mode with prescaler 256.  This is the function
as it runs when no interrupt is served inside it; `goLoad`, `goArm` and the
event `goServing` give the run in which handlers are served between `sei()`
and the last statement. -/
def go (s : State) : State :=
  { s with
    stepsRequested := s.nsteps
    stepsDone := 0
    OCR1A := s.ticksPerStep
    PORTA := sbi s.PORTA SLEEP_PIN
    iflag := true
    TCCR1B := 0b00001100 }

/-- The first part of source `go`, lines 269 to 283: timer off, `cli()`,
motion parameters, driver enable high, `sei()`. -/
def goLoad (s : State) : State :=
  { s with
    TCCR1B := 0b00000000
    stepsRequested := s.nsteps
    stepsDone := 0
    OCR1A := s.ticksPerStep
    PORTA := sbi s.PORTA SLEEP_PIN
    iflag := true }

/-- The last statement of source `go`, line 286: timer on. -/
def goArm (s : State) : State :=
  { s with TCCR1B := 0b00001100 }

/-- Source `initialize` (a reserved word in Lean, hence the spelling), with
`pina` the level of the port A inputs read by
`oldpina = PINA & LIMITMASK`.  The serial port and the registers that only
`initialize` writes and nothing reads (data direction, interrupt masks,
pull-ups) are left out. -/
def initialise (dz pina : Nat) (s : State) : State :=
  let f := (F_CPU / 256) % 65536
  let q := udiv dz f 0
  PRINTLN str05 { s with
    direction := FORWARD
    PORTA := cbi (sbi s.PORTA DIR_PIN) SLEEP_PIN
    PORTB := sbi s.PORTB LED_PIN
    f_timer := f
    stepsPerSec := 0
    ticksPerStep := q.1
    divZero := s.divZero || q.2
    stepsRequested := 0
    stepsDone := 0
    nsteps := 0
    position := 0
    home := 0
    oldpina := pina &&& LIMITMASK }

/-- The state of the chip at power-on: the I/O registers and `SREG` are
cleared by reset and the C runtime zeroes the globals. -/
def reset : State :=
  { direction := 0, f_timer := 0, stepsPerSec := 0, ticksPerStep := 0, nsteps := 0,
    oldpina := 0, newpina := 0, bufpina := 0, position := 0, home := 0,
    stepsDone := 0, stepsRequested := 0, PORTA := 0, PORTB := 0, TCCR1B := 0,
    OCR1A := 0, iflag := false, pulses := 0, divZero := false }

/-- Source `ISR(TIMER1_COMPA_vect)`, the step pulse generator. -/
def TIMER1_COMPA_vect (s : State) : State :=
  if s.stepsDone < s.stepsRequested then
    let t := stepMotor s
    if t.direction ≠ 0 then
      { t with position := wrap16 (t.position + 1) }
    else
      { t with position := wrap16 (t.position - 1) }
  else
    stopMotor s

/-- Source `ISR(PCINT0_vect)`, the sense-line monitor; `pina` is the value of
`PINA` it reads. -/
def PCINT0_vect (pina : Nat) (s : State) : State :=
  let newpina := pina &&& LIMITMASK
  let bufpina := newpina ^^^ s.oldpina
  let s1 := { s with newpina := newpina, bufpina := bufpina }
  let s2 :=
    if bufpina = BV FLIMIT_PIN then
      if newpina &&& BV FLIMIT_PIN = 0 then stopMotor s1 else s1
    else if bufpina = BV RLIMIT_PIN then
      if newpina &&& BV RLIMIT_PIN = 0 then stopMotor s1 else s1
    else if bufpina = BV HOME_PIN then
      if newpina &&& BV HOME_PIN ≠ 0 then { s1 with home := s1.position } else s1
    else s1
  { s2 with oldpina := newpina }

/-- One pass of the command loop of `main`, by case label.  `d` carries the
byte read for the direction, `n` and `s` carry the `int16_t` that
`serial0RecvNum` returned, `other` is the `default` label.  `C` stands for
the whole current-adjust pass, from the prompt to the byte that ends it: the
handlers served while it waits neither read the enable output nor undo what
the pass writes last, so serving them after the pass gives the same state. -/
inductive Cmd where
  | cr
  | space
  | C
  | d (temp : Char)
  | g
  | n (num : Int)
  | s (num : Int)
  | S
  | other
  deriving DecidableEq, Repr

/-- What a command reports on the serial line besides its prompt and echo. -/
inductive Reply where
  | none
  | query
  | str15
  | status
  | str19
  deriving DecidableEq, Repr

/-- Source `main`, the body of the `switch (cmd)`. -/
def main_cmd (dz : Nat) (s : State) : Cmd → State × Reply
  | .cr => (s, .none)
  | .space => (stopMotor s, .none)
  | .C =>
    ({ PRINTLN str16 s with
       PORTA := cbi (sbi (PRINTLN str16 s).PORTA SLEEP_PIN) SLEEP_PIN }, .none)
  | .d temp =>
    if temp = 'f' then
      ({ PRINTLN str01 s with
         direction := FORWARD
         PORTA := sbi (PRINTLN str01 s).PORTA DIR_PIN
         PORTB := sbi (PRINTLN str01 s).PORTB LED_PIN }, .none)
    else if temp = 'r' then
      ({ PRINTLN str01 s with
         direction := REVERSE
         PORTA := cbi (PRINTLN str01 s).PORTA DIR_PIN
         PORTB := cbi (PRINTLN str01 s).PORTB LED_PIN }, .none)
    else (PRINTLN str01 s, .query)
  | .g => if s.stepsPerSec ≠ 0 then (go s, .none) else (PRINTLN str15 s, .str15)
  | .n num => ({ PRINTLN str12 s with nsteps := toU16 num, stepsDone := 0 }, .none)
  | .s num =>
    let sps := toU16 num
    let q := udiv dz 57600 sps
    ({ PRINTLN str08 s with
       stepsPerSec := sps
       ticksPerStep := q.1 % 65536
       OCR1A := q.1 % 65536
       divZero := (PRINTLN str08 s).divZero || q.2 }, .none)
  | .S => (printStatus s, .status)
  | .other => (printCmdList (PRINTLN str19 s), .str19)

/-- The state after a command. -/
def exec (dz : Nat) (s : State) (c : Cmd) : State := (main_cmd dz s c).1

/-- The signed unit a pulse adds to the position: `+1` when `direction` is
non-zero (`FORWARD`), `-1` otherwise (`REVERSE`). -/
def dirSign (s : State) : Int := if s.direction ≠ 0 then 1 else -1

/-- The timer handler applied `k` times in a row. -/
def fires : Nat → State → State
  | 0, s => s
  | k + 1, s => TIMER1_COMPA_vect (fires k s)

/-- An interrupt request: the timer compare match, or a pin change with
`pina` on the port when the handler reads it. -/
inductive Irq where
  | timer
  | pcint (pina : Nat)
  deriving DecidableEq, Repr

/-- The handler of an interrupt request. -/
def handler : Irq → State → State
  | .timer => TIMER1_COMPA_vect
  | .pcint pina => PCINT0_vect pina

/-- The request is a pin change. -/
def isPcint : Irq → Bool
  | .pcint _ => true
  | .timer => false

/-- What can happen to the controller: a command completes in the foreground,
the timer compare interrupt is served, or the pin change interrupt is served
with `pina` on the port.  Each of these is one indivisible step; a handler
served while a command waits for its input counts as served before it.
`goServing hs` is the command `g` during which the requests `hs`, latched
while interrupts were masked, are served inside `go` after `sei()` (line 283)
and before the timer is switched on (line 286); `goServing []` is the command
`g` itself. -/
inductive Event where
  | cmd (c : Cmd)
  | timer
  | pcint (pina : Nat)
  | goServing (hs : List Irq)
  deriving DecidableEq, Repr

/-- The event is, or contains, an invocation of the sense-line monitor. -/
def isMonitor : Event → Bool
  | .pcint _ => true
  | .goServing hs => hs.any isPcint
  | _ => false

/-- The event serves a handler inside `go`. -/
def servedInGo : Event → Bool
  | .goServing (_ :: _) => true
  | _ => false

/-- The state after one event.  The handlers are applied whatever the
interrupt enable bits say: the hardware can only serve fewer interrupts. -/
def step (dz : Nat) (s : State) : Event → State
  | .cmd c => exec dz s c
  | .timer => TIMER1_COMPA_vect s
  | .pcint pina => PCINT0_vect pina s
  | .goServing hs =>
    if s.stepsPerSec ≠ 0 then goArm (hs.foldl (fun t h => handler h t) (goLoad s))
    else PRINTLN str15 s

/-- The state after a sequence of events. -/
def run (dz : Nat) (s : State) (es : List Event) : State := es.foldl (step dz) s

/-- The events of a short run: rate 100, three steps requested, go, two
timer firings. -/
def demoEvents : List Event :=
  [.cmd (.s 100), .cmd (.n 3), .cmd .g, .timer, .timer]

/-- The state in the middle of that run, started with all sense lines high
and with 65535 as the value of a division by zero. -/
def demoRun : State := run 65535 (initialise 65535 112 reset) demoEvents

/-- The events of a run interrupted by a current-adjust pass: rate 100,
three steps requested, go, then the command `C` and the byte that ends it. -/
def tunedEvents : List Event :=
  [.cmd (.s 100), .cmd (.n 3), .cmd .g, .cmd .C]

/-- A state in motion at position 37 whose snapshot has the home line low
and both limit lines high. -/
def homeState : State :=
  { direction := 1, f_timer := 57600, stepsPerSec := 100, ticksPerStep := 576, nsteps := 50,
    oldpina := 80, newpina := 80, bufpina := 32, position := 37, home := 0,
    stepsDone := 37, stepsRequested := 50, PORTA := 129, PORTB := 4, TCCR1B := 12,
    OCR1A := 576, iflag := true, pulses := 37, divZero := true }

/-- A state with the position at the top of the `int16_t` range, as it
stands after a run of 32767 forward steps from start-up and the command
`n 1`: stopped, one step requested. -/
def topState : State :=
  { direction := 1, f_timer := 57600, stepsPerSec := 100, ticksPerStep := 576, nsteps := 1,
    oldpina := 0, newpina := 0, bufpina := 0, position := 32767, home := 0,
    stepsDone := 0, stepsRequested := 0, PORTA := 1, PORTB := 4, TCCR1B := 0,
    OCR1A := 576, iflag := false, pulses := 32767, divZero := true }

/-- A state in motion at the bottom of the `int16_t` range, as it stands
after a run of 32767 reverse steps from start-up and the first pulse of a run
of two: reverse, one of two requested steps done. -/
def bottomState : State :=
  { direction := 0, f_timer := 57600, stepsPerSec := 100, ticksPerStep := 576, nsteps := 2,
    oldpina := 0, newpina := 0, bufpina := 0, position := -32768, home := 0,
    stepsDone := 1, stepsRequested := 2, PORTA := 128, PORTB := 0, TCCR1B := 12,
    OCR1A := 576, iflag := true, pulses := 32768, divZero := true }

/-- A small state for trying the theorems: as after start-up with all sense
lines high and the commands `s 100`, `n 3`. -/
def demoState : State :=
  { direction := 1, f_timer := 57600, stepsPerSec := 100, ticksPerStep := 576, nsteps := 3,
    oldpina := 112, newpina := 0, bufpina := 0, position := 0, home := 0,
    stepsDone := 0, stepsRequested := 0, PORTA := 1, PORTB := 4, TCCR1B := 0,
    OCR1A := 576, iflag := false, pulses := 0, divZero := true }

/-- The states the controller can be in: start-up with some level `pina` on
the sense lines, then any sequence of events. -/
def Reachable (dz : Nat) (s : State) : Prop :=
  ∃ pina es, run dz (initialise dz pina reset) es = s

/-- While the timer is armed the count of steps done does not exceed the
count requested. -/
def CountInv (s : State) : Prop := running s → s.stepsDone ≤ s.stepsRequested

/-- While the timer is armed the driver enable output is high. -/
def DriveInv (s : State) : Prop := running s → driverOn s

/-- Along the events `es` from the state `s`, every current-adjust pass `C`
is made while the controller is not running. -/
def tuningAtRest (dz : Nat) : State → List Event → Prop
  | _, [] => True
  | s, e :: es => (e = Event.cmd Cmd.C → ¬ running s) ∧ tuningAtRest dz (step dz s e) es

/-- While the timer is armed a positive number of steps is requested. -/
def RequestInv (s : State) : Prop := running s → 0 < s.stepsRequested

/-- The event is the command `g`, with or without handlers served inside. -/
def isGo : Event → Bool
  | .cmd .g => true
  | .goServing _ => true
  | _ => false

/-- Along the events `es` from the state `s`, every `g` that is accepted
(`stepsPerSec` not 0) comes with a count entered, `nsteps > 0`. -/
def goWithCount (dz : Nat) : State → List Event → Prop
  | _, [] => True
  | s, e :: es =>
    (isGo e = true → s.stepsPerSec ≠ 0 → 0 < s.nsteps) ∧ goWithCount dz (step dz s e) es

instance decGoWithCount (dz : Nat) :
    (s : State) → (es : List Event) → Decidable (goWithCount dz s es)
  | _, [] => isTrue trivial
  | s, e :: es =>
    have := decGoWithCount dz (step dz s e) es
    inferInstanceAs (Decidable ((isGo e = true → s.stepsPerSec ≠ 0 → 0 < s.nsteps) ∧
      goWithCount dz (step dz s e) es))

instance decTuningAtRest (dz : Nat) :
    (s : State) → (es : List Event) → Decidable (tuningAtRest dz s es)
  | _, [] => isTrue trivial
  | s, e :: es =>
    have := decTuningAtRest dz (step dz s e) es
    inferInstanceAs (Decidable ((e = Event.cmd Cmd.C → ¬ running s) ∧
      tuningAtRest dz (step dz s e) es))

/-- The event is a command, not an interrupt. -/
def isCommand : Event → Bool
  | .cmd _ => true
  | .goServing _ => true
  | _ => false

/-- How the processor serves an interrupt: the handler runs only while the
global interrupt enable `iflag` is set, and the return from the handler sets
the flag again (the `reti` that ends every `ISR`). -/
def serve (handler : State → State) (s : State) : State :=
  if s.iflag then { handler s with iflag := true } else s

/-- The state after one event when interrupts go through `serve`. -/
def hwStep (dz : Nat) (s : State) : Event → State
  | .cmd c => exec dz s c
  | .timer => serve TIMER1_COMPA_vect s
  | .pcint pina => serve (PCINT0_vect pina) s
  | .goServing hs =>
    if s.stepsPerSec ≠ 0 then goArm (hs.foldl (fun t h => serve (handler h) t) (goLoad s))
    else PRINTLN str15 s

/-- The state after a sequence of events when interrupts go through `serve`. -/
def hwRun (dz : Nat) (s : State) (es : List Event) : State := es.foldl (hwStep dz) s

/-- Along the events `es` from the state `s`, no `g` is successful: whenever
the command `g` comes, `stepsPerSec` is 0 and the command is refused. -/
def noStart (dz : Nat) : State → List Event → Prop
  | _, [] => True
  | s, e :: es => (isGo e = true → s.stepsPerSec = 0) ∧ noStart dz (hwStep dz s e) es

instance decNoStart (dz : Nat) :
    (s : State) → (es : List Event) → Decidable (noStart dz s es)
  | _, [] => isTrue trivial
  | s, e :: es =>
    have := decNoStart dz (hwStep dz s e) es
    inferInstanceAs (Decidable ((isGo e = true → s.stepsPerSec = 0) ∧
      noStart dz (hwStep dz s e) es))

/-- Events before any rate is stored: sense lines change, steps are
requested, `g` is tried, the timer flag comes up, the direction is set. -/
def idleEvents : List Event :=
  [.pcint 96, .cmd (.n 3), .cmd .g, .timer, .pcint 112, .cmd (.d 'r'), .cmd .S]

/-! ## The numeric parser -/

/-- White space as the C library sees it (`isspace`): the space and the
controls from `\t` to `\r`. -/
def isspace (c : Char) : Bool := c = ' ' || (9 ≤ c.toNat && c.toNat ≤ 13)

/-- Decimal digits as the C library sees them (`isdigit`). -/
def isdigit (c : Char) : Bool := 48 ≤ c.toNat && c.toNat ≤ 57

/-- The digit loop of `atoi`: accumulate decimal digits until the first
character that is not one. -/
def atoiDigits (acc : Nat) : List Char → Nat
  | [] => acc
  | c :: cs => if isdigit c then atoiDigits (acc * 10 + (c.toNat - 48)) cs else acc

/-- The C library function `atoi` on the bytes at its argument: skip white
space, take an optional sign, convert the digits that follow and stop at the
first other character; the result is a 16-bit `int`.  The end of the list
stops it like any character that is not a digit. -/
def atoi : List Char → Int
  | [] => 0
  | c :: cs =>
    if isspace c then atoi cs
    else if c = '+' then wrap16 (atoiDigits 0 cs)
    else if c = '-' then wrap16 (-(atoiDigits 0 cs : Int))
    else wrap16 (atoiDigits 0 (c :: cs))

/-- What a call of `serial0RecvNum` leaves: the `int16_t` it returns, the
input it has not read, the indices of the local `strBuf` it has written
(latest first), and the index at which line 427 put the terminator into the
global `strbuf`, if it did. -/
structure RecvNum where
  value : Int
  rest : List Char
  writes : List Nat
  strbufNul : Option Nat
  deriving DecidableEq, Repr

/-- The `for (;;)` loop of source `serial0RecvNum`.  `strBuf` is the memory
at the local buffer (its 7 bytes and what follows them), `i` the index, the
list argument the bytes still to arrive on the serial line; with no byte left
the loop waits and the function does not return.  On carriage return the
terminator goes to the global `strbuf`, so `atoi` reads the local buffer
as the loop has left it. -/
def recvLoop (strBuf : List Char) (i : Nat) (writes : List Nat) : List Char → Option RecvNum
  | [] => none
  | c :: rest =>
    if c = '\r' then
      some { value := atoi (strBuf.set i c), rest := rest, writes := i :: writes,
             strbufNul := some i }
    else if i = 5 ∧ (strBuf.set i c).head? ≠ some '+' ∧ (strBuf.set i c).head? ≠ some '-' then
      some { value := 0, rest := rest, writes := i :: writes, strbufNul := none }
    else if i = 6 then
      some { value := 0, rest := rest, writes := i :: writes, strbufNul := none }
    else recvLoop (strBuf.set i c) (i + 1) (i :: writes) rest

/-- Source `serial0RecvNum`, with `mem` the prior contents of the memory at
`strBuf` and `input` the bytes that arrive. -/
def serial0RecvNum (mem input : List Char) : Option RecvNum := recvLoop mem 0 [] input

/-- The value of a string of decimal digits, most significant first. -/
def decimalValue (ds : List Char) : Nat :=
  Nat.ofDigits 10 (ds.reverse.map (fun c => c.toNat - 48))

/-- The memory at `strBuf` as an earlier call that read `142` and a carriage
return leaves it. -/
def staleBuf : List Char := ['1', '4', '2', '\r', 'x', 'x', 'x']

/-! # Theorems -/

/-! ## The commands in closed form -/

/-- The text of the current-adjust prompt is 58 bytes with its terminator:
the last ten, `y to exit` and the terminator, land on the six globals behind
`strbuf`. -/
theorem PRINTLN_str16 (s : State) :
    PRINTLN str16 s =
      { s with
        stepsRequested := 8313, stepsDone := 28532, home := 25888, position := 27000,
        bufpina := 116, newpina := 0 } := by
  simp [PRINTLN, str16, overrunAt, poke, setLo, setHi, toU16, wrap16]
  refine ⟨?_, ?_, ?_, ?_⟩ <;> omega

/-- The longest line of the command list is 54 bytes with its terminator: the
last six land on `stepsRequested`, `stepsDone` and `home`. -/
theorem PRINTLN_str03 (s : State) :
    PRINTLN str03 s = { s with stepsRequested := 29554, stepsDone := 2661, home := 13 } := by
  simp [PRINTLN, str03, overrunAt, poke, setLo, setHi, toU16, wrap16]
  refine ⟨?_, ?_, ?_⟩ <;> omega

/-- Every other text fits the 48 bytes of `strbuf`. -/
theorem PRINTLN_fits (s : State) :
    PRINTLN str00 s = s ∧ PRINTLN str01 s = s ∧ PRINTLN str02 s = s ∧ PRINTLN str04 s = s ∧
    PRINTLN str05 s = s ∧ PRINTLN str06 s = s ∧ PRINTLN str07 s = s ∧ PRINTLN str08 s = s ∧
    PRINTLN str09 s = s ∧ PRINTLN str10 s = s ∧ PRINTLN str11 s = s ∧ PRINTLN str12 s = s ∧
    PRINTLN str13 s = s ∧ PRINTLN str14 s = s ∧ PRINTLN str15 s = s ∧ PRINTLN str17 s = s ∧
    PRINTLN str18 s = s ∧ PRINTLN str19 s = s ∧ PRINTLN str20 s = s ∧ PRINTLN str21 s = s ∧
    PRINTLN str22 s = s :=
  ⟨rfl, rfl, rfl, rfl, rfl, rfl, rfl, rfl, rfl, rfl, rfl, rfl, rfl, rfl, rfl, rfl, rfl, rfl,
    rfl, rfl, rfl⟩

theorem printStatus_eq (s : State) : printStatus s = s := rfl

theorem printCmdList_eq (s : State) :
    printCmdList s = { s with stepsRequested := 29554, stepsDone := 2661, home := 13 } := by
  have h : printCmdList s = PRINTLN str03 s := rfl
  rw [h, PRINTLN_str03]

theorem initialise_eq (dz pina : Nat) (s : State) :
    initialise dz pina s =
      { s with
        direction := FORWARD
        PORTA := cbi (sbi s.PORTA DIR_PIN) SLEEP_PIN
        PORTB := sbi s.PORTB LED_PIN
        f_timer := (F_CPU / 256) % 65536
        stepsPerSec := 0
        ticksPerStep := (udiv dz ((F_CPU / 256) % 65536) 0).1
        divZero := s.divZero || (udiv dz ((F_CPU / 256) % 65536) 0).2
        stepsRequested := 0
        stepsDone := 0
        nsteps := 0
        position := 0
        home := 0
        oldpina := pina &&& LIMITMASK } := rfl

theorem go_eq (s : State) : go s = goArm (goLoad s) := rfl

theorem exec_cr (dz : Nat) (s : State) : exec dz s .cr = s := rfl

theorem exec_space (dz : Nat) (s : State) : exec dz s .space = stopMotor s := rfl

theorem exec_C (dz : Nat) (s : State) :
    exec dz s .C =
      { s with
        stepsRequested := 8313, stepsDone := 28532, home := 25888, position := 27000,
        bufpina := 116, newpina := 0,
        PORTA := cbi (sbi s.PORTA SLEEP_PIN) SLEEP_PIN } := by
  simp only [exec, main_cmd, PRINTLN_str16]

theorem exec_d (dz : Nat) (s : State) (temp : Char) :
    exec dz s (.d temp) =
      if temp = 'f' then
        { s with direction := FORWARD
                 PORTA := sbi s.PORTA DIR_PIN
                 PORTB := sbi s.PORTB LED_PIN }
      else if temp = 'r' then
        { s with direction := REVERSE
                 PORTA := cbi s.PORTA DIR_PIN
                 PORTB := cbi s.PORTB LED_PIN }
      else s := by
  simp only [exec, main_cmd, (PRINTLN_fits s).2.1]
  split_ifs <;> rfl

theorem main_cmd_g (dz : Nat) (s : State) :
    main_cmd dz s .g = if s.stepsPerSec ≠ 0 then (go s, Reply.none) else (s, Reply.str15) := by
  simp only [main_cmd, (PRINTLN_fits s).2.2.2.2.2.2.2.2.2.2.2.2.2.2.1]

theorem exec_g (dz : Nat) (s : State) :
    exec dz s .g = if s.stepsPerSec ≠ 0 then go s else s := by
  simp only [exec, main_cmd_g]
  split_ifs <;> rfl

theorem exec_n (dz : Nat) (s : State) (num : Int) :
    exec dz s (.n num) = { s with nsteps := toU16 num, stepsDone := 0 } := by
  simp only [exec, main_cmd, (PRINTLN_fits s).2.2.2.2.2.2.2.2.2.2.2.1]

theorem main_cmd_s (dz : Nat) (s : State) (num : Int) :
    main_cmd dz s (.s num) =
      ({ s with
         stepsPerSec := toU16 num
         ticksPerStep := (udiv dz 57600 (toU16 num)).1 % 65536
         OCR1A := (udiv dz 57600 (toU16 num)).1 % 65536
         divZero := s.divZero || (udiv dz 57600 (toU16 num)).2 }, Reply.none) := by
  simp only [main_cmd, (PRINTLN_fits s).2.2.2.2.2.2.2.1]

theorem exec_s (dz : Nat) (s : State) (num : Int) :
    exec dz s (.s num) =
      { s with
        stepsPerSec := toU16 num
        ticksPerStep := (udiv dz 57600 (toU16 num)).1 % 65536
        OCR1A := (udiv dz 57600 (toU16 num)).1 % 65536
        divZero := s.divZero || (udiv dz 57600 (toU16 num)).2 } := by
  simp only [exec, main_cmd_s]

theorem exec_S (dz : Nat) (s : State) : exec dz s .S = s := rfl

theorem exec_other (dz : Nat) (s : State) :
    exec dz s .other = { s with stepsRequested := 29554, stepsDone := 2661, home := 13 } := by
  simp only [exec, main_cmd, (PRINTLN_fits s).2.2.2.2.2.2.2.2.2.2.2.2.2.2.2.2.2.1,
    printCmdList_eq]

/-- The command `g` with no handler served inside `go` is the command `g`. -/
theorem step_goServing_nil (dz : Nat) (s : State) :
    step dz s (.goServing []) = exec dz s .g := by
  rw [exec_g]
  simp only [step, List.foldl_nil, go_eq, (PRINTLN_fits s).2.2.2.2.2.2.2.2.2.2.2.2.2.2.1]

/-! ## Bit arithmetic on the registers -/

theorem BV_SLEEP : BV SLEEP_PIN = 128 := by decide

theorem cbi_sleep_low (r : Nat) : cbi r SLEEP_PIN &&& BV SLEEP_PIN = 0 := by
  have h : (0xFF - BV SLEEP_PIN) &&& BV SLEEP_PIN = 0 := by decide
  unfold cbi
  rw [Nat.and_assoc, h, Nat.and_zero]

theorem cbi_cbi (r bit : Nat) : cbi (cbi r bit) bit = cbi r bit := by
  unfold cbi
  rw [Nat.and_assoc, Nat.and_self]

theorem sbi_sleep_high (r : Nat) : sbi r SLEEP_PIN &&& BV SLEEP_PIN ≠ 0 := by
  have h : sbi r SLEEP_PIN &&& BV SLEEP_PIN = 128 := by
    unfold sbi
    rw [BV_SLEEP]
    apply Nat.eq_of_testBit_eq
    intro i
    simp only [Nat.testBit_and, Nat.testBit_or]
    cases Nat.testBit 128 i <;> simp
  omega

/-- A pulse on the step output leaves the other bits of port A alone, and
with them the driver enable. -/
theorem step_pulse_sleep (r : Nat) :
    cbi (sbi r STEP_PIN) STEP_PIN &&& BV SLEEP_PIN = r &&& BV SLEEP_PIN := by
  unfold cbi sbi
  apply Nat.eq_of_testBit_eq
  intro i
  simp only [Nat.testBit_and, Nat.testBit_or]
  have h1 : BV SLEEP_PIN = 2 ^ 7 := by decide
  rw [h1, Nat.testBit_two_pow]
  by_cases hi : 7 = i
  · subst hi
    have : Nat.testBit (0xFF - BV STEP_PIN) 7 = true := by decide
    have h4 : Nat.testBit (BV STEP_PIN) 7 = false := by decide
    simp [this, h4]
  · simp [hi]

/-! ## The pulse generator -/

theorem wrap16_id (v : Int) (h : InInt16 v) : wrap16 v = v := by
  unfold InInt16 at h
  unfold wrap16
  omega

theorem wrap16_succ (v : Int) : wrap16 (wrap16 v + 1) = wrap16 (v + 1) := by
  unfold wrap16
  omega

theorem wrap16_pred (v : Int) : wrap16 (wrap16 v - 1) = wrap16 (v - 1) := by
  unfold wrap16
  omega

/-- A firing with steps left to do: one pulse, one count, one position unit. -/
theorem timer_pulse (s : State) (h : s.stepsDone < s.stepsRequested) :
    TIMER1_COMPA_vect s =
      { s with
        PORTA := cbi (sbi s.PORTA STEP_PIN) STEP_PIN
        pulses := s.pulses + 1
        stepsDone := (s.stepsDone + 1) % 65536
        position := wrap16 (s.position + dirSign s) } := by
  unfold TIMER1_COMPA_vect dirSign stepMotor
  by_cases hd : s.direction = 0
  · simp [h, hd]; rfl
  · simp [h, hd]

/-- A firing with no steps left to do stops the motor. -/
theorem timer_done (s : State) (h : ¬ s.stepsDone < s.stepsRequested) :
    TIMER1_COMPA_vect s = stopMotor s := by
  unfold TIMER1_COMPA_vect
  simp [h]

/-- While steps are left, `k` firings give `k` pulses and leave everything
but the step count, the pulse count, the position and the step output as it
was. -/
theorem fires_pulsing (s : State) (hr : s.stepsRequested < 65536) (hp : InInt16 s.position) :
    ∀ k, s.stepsDone + k ≤ s.stepsRequested →
      (fires k s).stepsDone = s.stepsDone + k ∧
      (fires k s).pulses = s.pulses + k ∧
      (fires k s).position = wrap16 (s.position + dirSign s * k) ∧
      (fires k s).stepsRequested = s.stepsRequested ∧
      (fires k s).direction = s.direction ∧
      (fires k s).TCCR1B = s.TCCR1B ∧
      (fires k s).PORTA &&& BV SLEEP_PIN = s.PORTA &&& BV SLEEP_PIN := by
  intro k
  induction k with
  | zero =>
    intro _
    simp [fires, wrap16_id _ hp]
  | succ k ih =>
    intro hk
    obtain ⟨h1, h2, h3, h4, h5, h6, h7⟩ := ih (by omega)
    have hlt : (fires k s).stepsDone < (fires k s).stepsRequested := by omega
    have hsign : dirSign (fires k s) = dirSign s := by
      unfold dirSign; rw [h5]
    simp only [fires]
    rw [timer_pulse _ hlt]
    refine ⟨?_, ?_, ?_, h4, h5, h6, ?_⟩
    · show ((fires k s).stepsDone + 1) % 65536 = s.stepsDone + (k + 1)
      omega
    · show (fires k s).pulses + 1 = s.pulses + (k + 1)
      omega
    · show wrap16 ((fires k s).position + dirSign (fires k s)) = _
      rw [h3, hsign]
      unfold dirSign
      by_cases hd : s.direction = 0
      · simp only [hd, ne_eq, not_true_eq_false, if_false]
        have := wrap16_pred (s.position + -1 * (k : Int))
        push_cast
        rw [show s.position + -1 * ((k : Int) + 1) = s.position + -1 * (k : Int) - 1 by ring]
        rw [← this]; rfl
      · simp only [hd, ne_eq, not_false_eq_true, if_true]
        have := wrap16_succ (s.position + 1 * (k : Int))
        push_cast
        rw [show s.position + 1 * ((k : Int) + 1) = s.position + 1 * (k : Int) + 1 by ring]
        rw [← this]
    · show cbi (sbi (fires k s).PORTA STEP_PIN) STEP_PIN &&& BV SLEEP_PIN = _
      rw [step_pulse_sleep, h7]

/-- Stopping is a fixed point of the timer handler. -/
theorem timer_stopMotor (s : State) : TIMER1_COMPA_vect (stopMotor s) = stopMotor s := by
  have h : ¬ (stopMotor s).stepsDone < (stopMotor s).stepsRequested := by
    simp [stopMotor]
  rw [timer_done _ h]
  simp [stopMotor, cbi_cbi]

theorem fires_stopMotor (s : State) : ∀ k, fires k (stopMotor s) = stopMotor s := by
  intro k
  induction k with
  | zero => rfl
  | succ k ih => simp only [fires]; rw [ih, timer_stopMotor]

theorem fires_add (s : State) (j : Nat) : ∀ k, fires (j + k) s = fires k (fires j s) := by
  intro k
  induction k with
  | zero => rfl
  | succ k ih =>
    show TIMER1_COMPA_vect (fires (j + k) s) = TIMER1_COMPA_vect (fires k (fires j s))
    rw [ih]

/-! ## Run to completion -/

theorem go_fields (s : State) :
    (go s).stepsDone = 0 ∧ (go s).stepsRequested = s.nsteps ∧ (go s).pulses = s.pulses ∧
    (go s).position = s.position ∧ (go s).direction = s.direction ∧ (go s).TCCR1B = 12 ∧
    (go s).OCR1A = s.ticksPerStep ∧ (go s).PORTA = sbi s.PORTA SLEEP_PIN :=
  ⟨rfl, rfl, rfl, rfl, rfl, rfl, rfl, rfl⟩

theorem stopMotor_fields (s : State) :
    (stopMotor s).TCCR1B = 0 ∧ (stopMotor s).stepsRequested = 0 ∧
    (stopMotor s).PORTA = cbi s.PORTA SLEEP_PIN ∧ (stopMotor s).pulses = s.pulses ∧
    (stopMotor s).stepsDone = s.stepsDone ∧ (stopMotor s).position = s.position :=
  ⟨rfl, rfl, rfl, rfl, rfl, rfl⟩

/-- Past the requested count every firing finds the motor stopped by the
firing that followed the last pulse. -/
theorem fires_past (s : State) (n : Nat) (h : ¬ (fires n s).stepsDone < (fires n s).stepsRequested) :
    ∀ k, n < k → fires k s = stopMotor (fires n s) := by
  intro k hk
  obtain ⟨j, rfl⟩ : ∃ j, k = (n + 1) + j := ⟨k - (n + 1), by omega⟩
  rw [fires_add]
  show fires j (TIMER1_COMPA_vect (fires n s)) = _
  rw [timer_done _ h, fires_stopMotor]

/-- C1 (as amended): after `go` with `nsteps = n` and nothing but timer
firings, the first `n` firings emit one pulse each (`stepsDone` and the pulse
count go 1..n, the controller stays running with the driver on), the firing
after the `n`-th calls `stopMotor`, and from then on no firing emits a pulse:
the controller is stopped with the timer off and the driver off, `n` pulses
emitted.  The position has moved by `n` units in the configured direction
reduced to the 16-bit signed range, which is exactly `n` units whenever
`position ± n` is in that range. -/
theorem run_to_completion (s : State) (hn : s.nsteps < 65536) (hp : InInt16 s.position) :
    (∀ k, k ≤ s.nsteps →
      (fires k (go s)).stepsDone = k ∧
      (fires k (go s)).pulses = s.pulses + k ∧
      running (fires k (go s)) ∧ driverOn (fires k (go s)) ∧
      (fires k (go s)).position = wrap16 (s.position + dirSign s * k)) ∧
    (∀ k, s.nsteps < k →
      fires k (go s) = stopMotor (fires s.nsteps (go s)) ∧
      (fires k (go s)).stepsDone = s.nsteps ∧
      (fires k (go s)).pulses = s.pulses + s.nsteps ∧
      ¬ running (fires k (go s)) ∧ ¬ driverOn (fires k (go s)) ∧
      (fires k (go s)).position = wrap16 (s.position + dirSign s * s.nsteps)) ∧
    (InInt16 (s.position + dirSign s * s.nsteps) →
      (fires (s.nsteps + 1) (go s)).position = s.position + dirSign s * s.nsteps) := by
  have hgo := go_fields s
  obtain ⟨g1, g2, g3, g4, g5, g6, _, g8⟩ := hgo
  have hsign : dirSign (go s) = dirSign s := by unfold dirSign; rw [g5]
  have key : ∀ k, k ≤ s.nsteps →
      (fires k (go s)).stepsDone = k ∧
      (fires k (go s)).pulses = s.pulses + k ∧
      (fires k (go s)).position = wrap16 (s.position + dirSign s * k) ∧
      (fires k (go s)).stepsRequested = s.nsteps ∧
      (fires k (go s)).TCCR1B = 12 ∧
      (fires k (go s)).PORTA &&& BV SLEEP_PIN = sbi s.PORTA SLEEP_PIN &&& BV SLEEP_PIN := by
    intro k hk
    have h := fires_pulsing (go s) (by rw [g2]; exact hn) (by rw [g4]; exact hp) k
      (by rw [g1, g2]; omega)
    rw [g1, g2, g3, g4, g6, g8, hsign] at h
    obtain ⟨h1, h2, h3, h4, _, h6, h7⟩ := h
    exact ⟨by omega, h2, h3, h4, h6, h7⟩
  have past : ∀ k, s.nsteps < k → fires k (go s) = stopMotor (fires s.nsteps (go s)) := by
    intro k hk
    obtain ⟨h1, _, _, h4, _, _⟩ := key s.nsteps (le_refl _)
    exact fires_past (go s) s.nsteps (by rw [h1, h4]; omega) k hk
  refine ⟨?_, ?_, ?_⟩
  · intro k hk
    obtain ⟨h1, h2, h3, _, h5, h6⟩ := key k hk
    refine ⟨h1, h2, ?_, ?_, h3⟩
    · unfold running; rw [h5]; decide
    · unfold driverOn; rw [h6]; exact sbi_sleep_high _
  · intro k hk
    obtain ⟨h1, h2, h3, _, _, _⟩ := key s.nsteps (le_refl _)
    rw [past k hk]
    refine ⟨rfl, h1, h2, ?_, ?_, h3⟩
    · unfold running; simp [stopMotor]
    · unfold driverOn; simp only [stopMotor, ne_eq, not_not]; exact cbi_sleep_low _
  · intro hr
    obtain ⟨_, _, h3, _, _, _⟩ := key s.nsteps (le_refl _)
    rw [past _ (Nat.lt_succ_self _)]
    show (fires s.nsteps (go s)).position = _
    rw [h3, wrap16_id _ hr]

/-- Run to completion on three forward steps from position 0. -/
theorem run_to_completion_witness :
    demoState.nsteps < 65536 ∧ InInt16 demoState.position ∧
    (fires 4 (go demoState)).pulses = 3 ∧ ¬ running (fires 4 (go demoState)) ∧
    (fires 4 (go demoState)).position = 3 :=
  have h := (run_to_completion demoState (by decide) (by decide)).2.1 4 (by decide)
  ⟨by decide, by decide, h.2.2.1, h.2.2.2.1, by decide⟩

/-- C1 as stated fails on the position: with the position at 32767, forward,
one requested step runs to completion (one pulse, then stopped) and leaves the
position at -32768, which is not one step further forward. -/
theorem run_to_completion_position_wraps :
    topState.nsteps = 1 ∧ topState.direction = FORWARD ∧ InInt16 topState.position ∧
    (fires 2 (go topState)).pulses = topState.pulses + 1 ∧
    ¬ running (fires 2 (go topState)) ∧
    (fires 2 (go topState)).position = -32768 ∧
    (fires 2 (go topState)).position ≠ topState.position + 1 := by
  decide

/-! ## Position tracking -/

/-- C3 (as amended): from a state with at least `N` steps left to do, a
position in the 16-bit signed range and `position ± N` still in that range,
`N` consecutive timer firings emit `N` pulses and each pulse moves the
position by exactly `+1` when the direction is forward (non-zero) and `-1`
when it is reverse (zero), so the position after `N` pulses is `N` away from
where it started. -/
theorem position_tracks_pulses (s : State) (N : Nat)
    (hr : s.stepsRequested < 65536) (hN : s.stepsDone + N ≤ s.stepsRequested)
    (hp : InInt16 s.position) (hq : InInt16 (s.position + dirSign s * N)) :
    (∀ k, k ≤ N → (fires k s).pulses = s.pulses + k) ∧
    (s.direction ≠ REVERSE → ∀ k, k ≤ N → (fires k s).position = s.position + k) ∧
    (s.direction = REVERSE → ∀ k, k ≤ N → (fires k s).position = s.position - k) ∧
    |(fires N s).position - s.position| = N := by
  have key : ∀ k, k ≤ N → (fires k s).pulses = s.pulses + k ∧
      (fires k s).position = s.position + dirSign s * k := by
    intro k hk
    obtain ⟨_, h2, h3, _⟩ := fires_pulsing s hr hp k (by omega)
    refine ⟨h2, ?_⟩
    rw [h3]
    apply wrap16_id
    unfold InInt16 at hp hq ⊢
    unfold dirSign at hq ⊢
    have hk2 : (k : Int) ≤ N := by exact_mod_cast hk
    by_cases hd : s.direction = 0
    · simp only [hd, ne_eq, not_true_eq_false, if_false] at hq ⊢
      omega
    · simp only [hd, ne_eq, not_false_eq_true, if_true] at hq ⊢
      omega
  refine ⟨fun k hk => (key k hk).1, ?_, ?_, ?_⟩
  · intro hd k hk
    rw [(key k hk).2]
    unfold dirSign REVERSE at *
    simp [hd]
  · intro hd k hk
    rw [(key k hk).2]
    unfold dirSign
    unfold REVERSE at hd
    simp [hd]
    ring
  · rw [(key N (le_refl _)).2]
    unfold dirSign
    by_cases hd : s.direction = 0
    · simp [hd]
    · simp [hd]

/-- Three forward pulses from position 0 end at position 3. -/
theorem position_tracks_pulses_witness :
    (go demoState).stepsRequested < 65536 ∧
    (go demoState).stepsDone + 3 ≤ (go demoState).stepsRequested ∧
    InInt16 (go demoState).position ∧
    InInt16 ((go demoState).position + dirSign (go demoState) * (3 : Nat)) ∧
    |(fires 3 (go demoState)).position - (go demoState).position| = (3 : Nat) :=
  ⟨by decide, by decide, by decide, by decide,
    (position_tracks_pulses (go demoState) 3 (by decide) (by decide) (by decide)
      (by decide)).2.2.2⟩

/-- C3 as stated fails at the ends of the 16-bit range: in reverse at
position -32768 with a step left to do, one firing emits one pulse and the
position becomes 32767, which is 65535 away and not 1. -/
theorem position_pulse_wraps :
    bottomState.direction = REVERSE ∧ InInt16 bottomState.position ∧
    bottomState.stepsDone < bottomState.stepsRequested ∧
    (fires 1 bottomState).pulses = bottomState.pulses + 1 ∧
    (fires 1 bottomState).position = 32767 ∧
    |(fires 1 bottomState).position - bottomState.position| ≠ 1 := by
  decide

/-! ## Stopping -/

/-- C10: `stopMotor` is idempotent, and the state it leaves has the timer
disarmed, the driver enable low and `stepsRequested = 0`. -/
theorem stopMotor_idempotent (s : State) :
    stopMotor (stopMotor s) = stopMotor s ∧
    ¬ running (stopMotor s) ∧ ¬ driverOn (stopMotor s) ∧
    (stopMotor s).stepsRequested = 0 := by
  refine ⟨?_, ?_, ?_, rfl⟩
  · simp [stopMotor, cbi_cbi]
  · simp [running, stopMotor]
  · simp only [driverOn, stopMotor, ne_eq, not_not]
    exact cbi_sleep_low _

/-! ## The counting invariant -/

theorem countInv_stopMotor (s : State) : CountInv (stopMotor s) := by
  intro hrun
  exact absurd rfl hrun

theorem countInv_go (s : State) : CountInv (go s) := by
  intro _
  exact Nat.zero_le _

theorem countInv_timer (s : State) : CountInv (TIMER1_COMPA_vect s) := by
  by_cases hlt : s.stepsDone < s.stepsRequested
  · rw [timer_pulse s hlt]
    intro _
    show (s.stepsDone + 1) % 65536 ≤ s.stepsRequested
    have := Nat.mod_le (s.stepsDone + 1) 65536
    omega
  · rw [timer_done s hlt]
    exact countInv_stopMotor s

theorem countInv_pcint (pina : Nat) (s : State) (h : CountInv s) :
    CountInv (PCINT0_vect pina s) := by
  unfold PCINT0_vect
  simp only
  split_ifs <;> intro hrun <;> first
    | exact absurd rfl hrun
    | exact h hrun

/-- Every command but `C` keeps the counting invariant; the unknown command
does so because the bytes its text leaves in the counters happen to be in
order. -/
theorem countInv_exec (dz : Nat) (s : State) (c : Cmd) (h : CountInv s)
    (hc : c ≠ Cmd.C) : CountInv (exec dz s c) := by
  cases c with
  | cr => exact h
  | space => exact countInv_stopMotor s
  | C => exact absurd rfl hc
  | d temp =>
    rw [exec_d]
    split_ifs <;> exact h
  | g =>
    rw [exec_g]
    split_ifs
    · exact countInv_go s
    · exact h
  | n num =>
    rw [exec_n]
    intro _
    exact Nat.zero_le _
  | s num =>
    rw [exec_s]
    exact h
  | S => exact h
  | other =>
    rw [exec_other]
    intro _
    show 2661 ≤ 29554
    omega

theorem countInv_step (dz : Nat) (s : State) (e : Event) (h : CountInv s)
    (hc : e ≠ Event.cmd Cmd.C) (hw : servedInGo e = false) : CountInv (step dz s e) := by
  cases e with
  | cmd c =>
    refine countInv_exec dz s c h ?_
    intro hcc
    exact hc (by rw [hcc])
  | timer => exact countInv_timer s
  | pcint pina => exact countInv_pcint pina s h
  | goServing hs =>
    cases hs with
    | nil =>
      rw [step_goServing_nil, exec_g]
      split_ifs
      · exact countInv_go s
      · exact h
    | cons x xs => simp [servedInGo] at hw

/-- Where the counting invariant does hold: along every run with no
current-adjust pass and no handler served inside `go`. -/
theorem countInv_run (dz : Nat) (es : List Event) :
    ∀ s, CountInv s → (∀ e ∈ es, e ≠ Event.cmd Cmd.C ∧ servedInGo e = false) →
      CountInv (run dz s es) := by
  induction es with
  | nil => intro s h _; exact h
  | cons e es ih =>
    intro s h hes
    have he := hes e (List.mem_cons_self _ _)
    exact ih (step dz s e) (countInv_step dz s e h he.1 he.2)
      (fun x hx => hes x (List.mem_cons_of_mem _ hx))

/-- C2 fails on the code.  After start-up, rate 100, three steps requested
and `g`, the command `C` copies its 58-byte prompt into the 48 bytes of
`strbuf`; the bytes `y to exit` land on `stepsRequested` and `stepsDone`, and
the controller is running with `stepsDone = 28532` above
`stepsRequested = 8313`. -/
theorem tuning_text_breaks_count :
    Reachable 65535 (run 65535 (initialise 65535 112 reset) tunedEvents) ∧
    running (run 65535 (initialise 65535 112 reset) tunedEvents) ∧
    (run 65535 (initialise 65535 112 reset) tunedEvents).stepsRequested = 8313 ∧
    (run 65535 (initialise 65535 112 reset) tunedEvents).stepsDone = 28532 ∧
    ¬ (run 65535 (initialise 65535 112 reset) tunedEvents).stepsDone
      ≤ (run 65535 (initialise 65535 112 reset) tunedEvents).stepsRequested :=
  ⟨⟨112, tunedEvents, rfl⟩, by decide, by decide, by decide, by decide⟩

/-! ## The sense-line monitor -/

/-- The monitor when the pattern read differs from the snapshot in exactly
one limit bit that now reads 0: `stopMotor`, then the snapshot. -/
theorem pcint_limit_low (pina pin : Nat) (s : State)
    (hpin : pin = FLIMIT_PIN ∨ pin = RLIMIT_PIN)
    (hx : (pina &&& LIMITMASK) ^^^ s.oldpina = BV pin)
    (hlow : (pina &&& LIMITMASK) &&& BV pin = 0) :
    PCINT0_vect pina s =
      { stopMotor s with
        newpina := pina &&& LIMITMASK, bufpina := BV pin, oldpina := pina &&& LIMITMASK } := by
  unfold PCINT0_vect
  rcases hpin with rfl | rfl
  · simp [hx, hlow, stopMotor]
  · have hne : BV RLIMIT_PIN ≠ BV FLIMIT_PIN := by decide
    simp [hx, hlow, hne, stopMotor]

/-- The monitor when the pattern read differs from the snapshot in exactly
one limit bit that now reads 1: only the pin bookkeeping changes. -/
theorem pcint_limit_high (pina pin : Nat) (s : State)
    (hpin : pin = FLIMIT_PIN ∨ pin = RLIMIT_PIN)
    (hx : (pina &&& LIMITMASK) ^^^ s.oldpina = BV pin)
    (hhigh : (pina &&& LIMITMASK) &&& BV pin ≠ 0) :
    PCINT0_vect pina s =
      { s with
        newpina := pina &&& LIMITMASK, bufpina := BV pin, oldpina := pina &&& LIMITMASK } := by
  unfold PCINT0_vect
  rcases hpin with rfl | rfl
  · simp [hx, hhigh]
  · have hne : BV RLIMIT_PIN ≠ BV FLIMIT_PIN := by decide
    simp [hx, hhigh, hne]

/-- C4: when the monitor sees exactly the forward-limit bit, or exactly the
reverse-limit bit, differ from the snapshot, then if the new value of that
bit is 0 the motor is stopped when it returns (timer disarmed, driver enable
low, `stepsRequested = 0`) and the snapshot is the new pattern; if the new
value is 1, `stopMotor` is not called: nothing changes but the pin
bookkeeping. -/
theorem limit_trip (pina pin : Nat) (s : State)
    (hpin : pin = FLIMIT_PIN ∨ pin = RLIMIT_PIN)
    (hx : (pina &&& LIMITMASK) ^^^ s.oldpina = BV pin) :
    ((pina &&& LIMITMASK) &&& BV pin = 0 →
      ¬ running (PCINT0_vect pina s) ∧ ¬ driverOn (PCINT0_vect pina s) ∧
      (PCINT0_vect pina s).stepsRequested = 0 ∧
      (PCINT0_vect pina s).oldpina = pina &&& LIMITMASK) ∧
    ((pina &&& LIMITMASK) &&& BV pin ≠ 0 →
      PCINT0_vect pina s =
        { s with
          newpina := pina &&& LIMITMASK, bufpina := BV pin,
          oldpina := pina &&& LIMITMASK }) := by
  refine ⟨?_, pcint_limit_high pina pin s hpin hx⟩
  intro hlow
  rw [pcint_limit_low pina pin s hpin hx hlow]
  refine ⟨?_, ?_, rfl, rfl⟩
  · simp [running, stopMotor]
  · simp only [driverOn, stopMotor, ne_eq, not_not]
    exact cbi_sleep_low _

/-- The forward limit going low two firings into a run stops the motor. -/
theorem limit_trip_witness :
    (FLIMIT_PIN = FLIMIT_PIN ∨ FLIMIT_PIN = RLIMIT_PIN) ∧
    (96 &&& LIMITMASK) ^^^ demoRun.oldpina = BV FLIMIT_PIN ∧
    (96 &&& LIMITMASK) &&& BV FLIMIT_PIN = 0 ∧
    running demoRun ∧
    ¬ running (PCINT0_vect 96 demoRun) ∧ ¬ driverOn (PCINT0_vect 96 demoRun) ∧
    (PCINT0_vect 96 demoRun).stepsRequested = 0 ∧
    (PCINT0_vect 96 demoRun).oldpina = 96 &&& LIMITMASK :=
  ⟨by decide, by decide, by decide, by decide,
    (limit_trip 96 FLIMIT_PIN demoRun (by decide) (by decide)).1 (by decide)⟩

/-- C5: when the monitor sees exactly the home bit differ from the snapshot,
then if the new value is 1 `home` becomes the position at that moment and
nothing else changes but the pin bookkeeping (direction, rate, counts,
position, timer and driver as they were); if the new value is 0, `home` is
unchanged. -/
theorem home_capture (pina : Nat) (s : State)
    (hx : (pina &&& LIMITMASK) ^^^ s.oldpina = BV HOME_PIN) :
    ((pina &&& LIMITMASK) &&& BV HOME_PIN ≠ 0 →
      (PCINT0_vect pina s).home = s.position ∧
      PCINT0_vect pina s =
        { s with
          home := s.position, newpina := pina &&& LIMITMASK, bufpina := BV HOME_PIN,
          oldpina := pina &&& LIMITMASK }) ∧
    ((pina &&& LIMITMASK) &&& BV HOME_PIN = 0 →
      (PCINT0_vect pina s).home = s.home ∧
      PCINT0_vect pina s =
        { s with
          newpina := pina &&& LIMITMASK, bufpina := BV HOME_PIN,
          oldpina := pina &&& LIMITMASK }) := by
  have h1 : BV HOME_PIN ≠ BV FLIMIT_PIN := by decide
  have h2 : BV HOME_PIN ≠ BV RLIMIT_PIN := by decide
  constructor
  · intro hhigh
    have : PCINT0_vect pina s =
        { s with
          home := s.position, newpina := pina &&& LIMITMASK, bufpina := BV HOME_PIN,
          oldpina := pina &&& LIMITMASK } := by
      unfold PCINT0_vect
      simp [hx, hhigh, h1, h2]
    exact ⟨by rw [this], this⟩
  · intro hlow
    have : PCINT0_vect pina s =
        { s with
          newpina := pina &&& LIMITMASK, bufpina := BV HOME_PIN,
          oldpina := pina &&& LIMITMASK } := by
      unfold PCINT0_vect
      simp [hx, hlow, h1, h2]
    exact ⟨by rw [this], this⟩

/-- The home line going high at position 37 records 37 as home. -/
theorem home_capture_witness :
    (112 &&& LIMITMASK) ^^^ homeState.oldpina = BV HOME_PIN ∧
    (112 &&& LIMITMASK) &&& BV HOME_PIN ≠ 0 ∧
    homeState.position = 37 ∧ (PCINT0_vect 112 homeState).home = 37 :=
  ⟨by decide, by decide, rfl,
    ((home_capture 112 homeState (by decide)).1 (by decide)).1⟩

/-! ## The snapshot at start-up -/

theorem BV_testBit (pin : Nat) : (BV pin).testBit pin = true := by
  unfold BV
  rw [Nat.one_shiftLeft, Nat.testBit_two_pow_self]

/-- Two patterns that agree on a line do not differ in exactly that line. -/
theorem xor_ne_BV (a b pin : Nat) (h : a.testBit pin = b.testBit pin) (m : Nat) :
    (a &&& m) ^^^ (b &&& m) ≠ BV pin := by
  intro hx
  have h1 := congrArg (fun v => Nat.testBit v pin) hx
  simp only [Nat.testBit_xor, Nat.testBit_and, BV_testBit, h] at h1
  simp at h1

theorem exec_oldpina (dz : Nat) (s : State) (c : Cmd) : (exec dz s c).oldpina = s.oldpina := by
  cases c with
  | C => rw [exec_C]
  | d temp => rw [exec_d]; split_ifs <;> rfl
  | g => rw [exec_g]; split_ifs <;> rfl
  | n num => rw [exec_n]
  | s num => rw [exec_s]
  | other => rw [exec_other]
  | _ => rfl

theorem timer_oldpina (s : State) : (TIMER1_COMPA_vect s).oldpina = s.oldpina := by
  by_cases hlt : s.stepsDone < s.stepsRequested
  · rw [timer_pulse s hlt]
  · rw [timer_done s hlt]; rfl

/-- Timer firings served inside `go` leave the snapshot alone. -/
theorem window_oldpina (hs : List Irq) :
    ∀ t : State, hs.any isPcint = false →
      (hs.foldl (fun t h => handler h t) t).oldpina = t.oldpina := by
  induction hs with
  | nil => intro t _; rfl
  | cons x xs ih =>
    intro t hx
    simp only [List.any_cons, Bool.or_eq_false_iff] at hx
    cases x with
    | timer =>
      show (xs.foldl (fun t h => handler h t) (TIMER1_COMPA_vect t)).oldpina = t.oldpina
      rw [ih _ hx.2, timer_oldpina]
    | pcint pina => simp [isPcint] at hx

/-- Until the monitor first runs the snapshot is the one taken at start-up. -/
theorem run_oldpina (dz : Nat) (es : List Event) :
    ∀ s, (∀ e ∈ es, isMonitor e = false) → (run dz s es).oldpina = s.oldpina := by
  induction es with
  | nil => intro s _; rfl
  | cons e es ih =>
    intro s hes
    have h1 : (step dz s e).oldpina = s.oldpina := by
      cases e with
      | cmd c => exact exec_oldpina dz s c
      | timer => exact timer_oldpina s
      | pcint x => exact absurd (hes (.pcint x) (List.mem_cons_self _ _)) (by simp [isMonitor])
      | goServing hs =>
        have hm : hs.any isPcint = false := hes (.goServing hs) (List.mem_cons_self _ _)
        simp only [step]
        split_ifs
        · show (hs.foldl (fun t h => handler h t) (goLoad s)).oldpina = s.oldpina
          rw [window_oldpina hs _ hm]
          rfl
        · rw [(PRINTLN_fits s).2.2.2.2.2.2.2.2.2.2.2.2.2.2.1]
    have h2 := ih (step dz s e) (fun e he => hes e (List.mem_cons_of_mem _ he))
    show (run dz (step dz s e) es).oldpina = s.oldpina
    rw [h2, h1]

/-- The monitor on a state whose snapshot is `p` masked, reading `q`. -/
theorem pcint_seeded (p q : Nat) (s : State) (hs : s.oldpina = p &&& LIMITMASK) :
    (q.testBit FLIMIT_PIN = p.testBit FLIMIT_PIN ∧
      q.testBit RLIMIT_PIN = p.testBit RLIMIT_PIN →
        (PCINT0_vect q s).TCCR1B = s.TCCR1B ∧ (PCINT0_vect q s).PORTA = s.PORTA ∧
        (PCINT0_vect q s).stepsRequested = s.stepsRequested ∧
        (PCINT0_vect q s).iflag = s.iflag) ∧
    (q.testBit HOME_PIN = p.testBit HOME_PIN → (PCINT0_vect q s).home = s.home) ∧
    (q &&& LIMITMASK = p &&& LIMITMASK →
      PCINT0_vect q s = { s with newpina := p &&& LIMITMASK, bufpina := 0 }) := by
  refine ⟨?_, ?_, ?_⟩
  · rintro ⟨hf, hr⟩
    have h1 := xor_ne_BV q p FLIMIT_PIN hf LIMITMASK
    have h2 := xor_ne_BV q p RLIMIT_PIN hr LIMITMASK
    unfold PCINT0_vect
    simp only [hs, h1, h2, if_false]
    split_ifs <;> exact ⟨rfl, rfl, rfl, rfl⟩
  · intro hh
    have h3 := xor_ne_BV q p HOME_PIN hh LIMITMASK
    unfold PCINT0_vect
    simp only [hs, h3, if_false]
    split_ifs <;> rfl
  · intro hq
    have h0 : BV FLIMIT_PIN ≠ 0 ∧ BV RLIMIT_PIN ≠ 0 ∧ BV HOME_PIN ≠ 0 := by decide
    obtain ⟨a, b, c⟩ := h0
    unfold PCINT0_vect
    simp only [hs, hq, Nat.xor_self, a.symm, b.symm, c.symm, if_false]

/-- C6: the snapshot is seeded from the levels `p` present at start-up, so
when the monitor runs for the first time, reading `q`, it does not stop the
motor if both limit lines read as they did in `p` (what `stopMotor` writes is
as it was), it does not record home if the home line reads as it did in `p`,
and if all three lines read as in `p` the state is unchanged apart from the
monitor's own scratch variables. -/
theorem no_spurious_edge (dz p q : Nat) (es : List Event)
    (hes : ∀ e ∈ es, isMonitor e = false) :
    (initialise dz p reset).oldpina = p &&& LIMITMASK ∧
    (q.testBit FLIMIT_PIN = p.testBit FLIMIT_PIN ∧
      q.testBit RLIMIT_PIN = p.testBit RLIMIT_PIN →
        (PCINT0_vect q (run dz (initialise dz p reset) es)).TCCR1B
          = (run dz (initialise dz p reset) es).TCCR1B ∧
        (PCINT0_vect q (run dz (initialise dz p reset) es)).PORTA
          = (run dz (initialise dz p reset) es).PORTA ∧
        (PCINT0_vect q (run dz (initialise dz p reset) es)).stepsRequested
          = (run dz (initialise dz p reset) es).stepsRequested ∧
        (PCINT0_vect q (run dz (initialise dz p reset) es)).iflag
          = (run dz (initialise dz p reset) es).iflag) ∧
    (q.testBit HOME_PIN = p.testBit HOME_PIN →
      (PCINT0_vect q (run dz (initialise dz p reset) es)).home
        = (run dz (initialise dz p reset) es).home) ∧
    (q &&& LIMITMASK = p &&& LIMITMASK →
      PCINT0_vect q (run dz (initialise dz p reset) es) =
        { run dz (initialise dz p reset) es with
          newpina := p &&& LIMITMASK, bufpina := 0 }) := by
  have hs : (run dz (initialise dz p reset) es).oldpina = p &&& LIMITMASK := by
    rw [run_oldpina dz es _ hes]; rfl
  exact ⟨rfl, pcint_seeded p q _ hs⟩

/-- A forward limit that is already low at start-up and still low when the
monitor first runs, two firings into a run, changes nothing. -/
theorem no_spurious_edge_witness :
    (∀ e ∈ demoEvents, isMonitor e = false) ∧
    running (run 65535 (initialise 65535 96 reset) demoEvents) ∧
    PCINT0_vect 96 (run 65535 (initialise 65535 96 reset) demoEvents) =
      { run 65535 (initialise 65535 96 reset) demoEvents with
        newpina := 96 &&& LIMITMASK, bufpina := 0 } :=
  ⟨by decide, by decide,
    (no_spurious_edge 65535 96 96 demoEvents (by decide)).2.2.2 rfl⟩

/-! ## The rate -/

theorem udiv_pos (dz a b : Nat) (hb : b ≠ 0) : udiv dz a b = (a / b, false) := by
  unfold udiv
  simp [hb]

/-- The command `s` with a non-zero rate. -/
theorem exec_s_pos (dz : Nat) (s : State) (num : Int) (h : toU16 num ≠ 0) :
    exec dz s (.s num) =
      { s with
        stepsPerSec := toU16 num
        ticksPerStep := 57600 / toU16 num
        OCR1A := 57600 / toU16 num } := by
  have hlt : 57600 / toU16 num % 65536 = 57600 / toU16 num := by
    apply Nat.mod_eq_of_lt
    have := Nat.div_le_self 57600 (toU16 num)
    omega
  rw [exec_s, udiv_pos dz 57600 _ h]
  simp only [hlt, Bool.or_false]

/-- The command `s` with a non-zero rate followed by `g`. -/
theorem rate_period_aux (dz : Nat) (s : State) (num : Int) (h : toU16 num ≠ 0) :
    (exec dz s (.s num)).stepsPerSec = toU16 num ∧
    (exec dz (exec dz s (.s num)) .g).OCR1A = 57600 / toU16 num ∧
    (exec dz (exec dz s (.s num)) .g).ticksPerStep = 57600 / toU16 num ∧
    running (exec dz (exec dz s (.s num)) .g) ∧
    (exec dz (exec dz s (.s num)) .g).divZero = s.divZero := by
  rw [exec_s_pos dz s num h]
  refine ⟨rfl, ?_, ?_, ?_, ?_⟩
  · simp only [exec, main_cmd, ne_eq, h, not_false_eq_true, if_true]
    rfl
  · simp only [exec, main_cmd, ne_eq, h, not_false_eq_true, if_true]
    rfl
  · simp only [exec, main_cmd, ne_eq, h, not_false_eq_true, if_true]
    simp [running, go]
  · simp only [exec, main_cmd, ne_eq, h, not_false_eq_true, if_true]
    rfl

/-- C7: for every non-zero rate stored by the `s` command, a following `g`
starts the timer with the compare period `OCR1A = ticksPerStep` equal to
`57600 / stepsPerSec` in integer division, no division by zero is evaluated
on the way, and 57600 is `F_CPU / 256`, the timer tick frequency that
start-up stores in `f_timer`. -/
theorem rate_period (dz : Nat) (s : State) (num : Int) (h : toU16 num ≠ 0) :
    (exec dz s (.s num)).stepsPerSec = toU16 num ∧
    (exec dz (exec dz s (.s num)) .g).OCR1A = 57600 / toU16 num ∧
    (exec dz (exec dz s (.s num)) .g).ticksPerStep = 57600 / toU16 num ∧
    running (exec dz (exec dz s (.s num)) .g) ∧
    (exec dz (exec dz s (.s num)) .g).divZero = s.divZero ∧
    F_CPU / 256 = 57600 ∧
    (initialise dz 0 s).f_timer = 57600 := by
  obtain ⟨h1, h2, h3, h4, h5⟩ := rate_period_aux dz s num h
  exact ⟨h1, h2, h3, h4, h5, by decide, rfl⟩

/-- At 100 steps per second the period is 576 ticks. -/
theorem rate_period_witness :
    toU16 100 ≠ 0 ∧ (exec 65535 (exec 65535 demoState (.s 100)) .g).OCR1A = 576 :=
  ⟨by decide, (rate_period 65535 demoState 100 (by decide)).2.1⟩

/-- C8 as stated fails: with a rate of 100 configured, the command `s` with
argument 0 reports nothing, overwrites `stepsPerSec` with 0, and evaluates
the division `57600 / 0`. -/
theorem zero_rate_overwrites :
    demoState.stepsPerSec = 100 ∧
    (main_cmd 65535 demoState (.s 0)).2 = Reply.none ∧
    (exec 65535 demoState (.s 0)).stepsPerSec = 0 ∧
    (udiv 65535 57600 (toU16 0)).2 = true ∧
    (exec 65535 { demoState with divZero := false } (.s 0)).divZero = true := by
  decide

/-- C8 (as amended): the command `s` with argument 0 reports nothing and
stores `stepsPerSec = 0`; apart from `ticksPerStep`, the compare register and
the division mark, every other variable and output (direction, counts,
position, home, timer control, driver enable) is as it was; the zero rate is
refused by the next `g`, which reports the error `str15` and changes
nothing. -/
theorem zero_rate_deferred (dz : Nat) (s : State) :
    (main_cmd dz s (.s 0)).2 = Reply.none ∧
    (exec dz s (.s 0)).stepsPerSec = 0 ∧
    { exec dz s (.s 0) with
      ticksPerStep := s.ticksPerStep, OCR1A := s.OCR1A, divZero := s.divZero }
      = { s with stepsPerSec := 0 } ∧
    main_cmd dz (exec dz s (.s 0)) .g = (exec dz s (.s 0), Reply.str15) := by
  have hs := exec_s dz s 0
  have h : (exec dz s (.s 0)).stepsPerSec = 0 := by rw [hs]; rfl
  refine ⟨by rw [main_cmd_s], h, by rw [hs]; rfl, ?_⟩
  rw [main_cmd_g]
  simp only [h, ne_eq, not_true_eq_false, if_false]

/-- C9 as stated fails: after start-up, the rate typed as `-1` is stored as
65535, the period `57600 / 65535` is 0, and `g` arms the timer with
`ticksPerStep = 0` and `OCR1A = 0`. -/
theorem go_arms_zero_period :
    toU16 (-1) = 65535 ∧
    (run 65535 (initialise 65535 112 reset) [.cmd (.s (-1))]).ticksPerStep = 0 ∧
    running (run 65535 (initialise 65535 112 reset) [.cmd (.s (-1)), .cmd .g]) ∧
    (run 65535 (initialise 65535 112 reset) [.cmd (.s (-1)), .cmd .g]).OCR1A = 0 := by
  decide

/-- C9 (as amended): `g` looks at `stepsPerSec`, not at `ticksPerStep`.  When
`stepsPerSec` is not 0 it runs `go`, which arms the timer with
`OCR1A = ticksPerStep` whatever that value is; for a rate stored by `s` that
is from 1 to 57600 this period is not 0.  When `stepsPerSec` is 0 it reports
the error `str15` and leaves the state unchanged, so a controller that was
not running is still not running. -/
theorem go_guard (dz : Nat) (s : State) :
    (s.stepsPerSec ≠ 0 →
      main_cmd dz s .g = (go s, Reply.none) ∧ running (go s) ∧
      (go s).OCR1A = s.ticksPerStep) ∧
    (s.stepsPerSec = 0 →
      main_cmd dz s .g = (s, Reply.str15) ∧ (¬ running s → ¬ running (exec dz s .g))) ∧
    (∀ num : Int, 0 < toU16 num → toU16 num ≤ 57600 →
      running (exec dz (exec dz s (.s num)) .g) ∧
      (exec dz (exec dz s (.s num)) .g).OCR1A ≠ 0) := by
  refine ⟨?_, ?_, ?_⟩
  · intro h
    refine ⟨?_, ?_, rfl⟩
    · rw [main_cmd_g]
      simp only [ne_eq, h, not_false_eq_true, if_true]
    · simp [running, go]
  · intro h
    have hm : main_cmd dz s .g = (s, Reply.str15) := by
      rw [main_cmd_g]
      simp only [h, ne_eq, not_true_eq_false, if_false]
    refine ⟨hm, ?_⟩
    intro hr
    unfold exec
    rw [hm]
    exact hr
  · intro num h0 h1
    have hne : toU16 num ≠ 0 := by omega
    obtain ⟨_, h2, _, h4, _⟩ := rate_period_aux dz s num hne
    refine ⟨h4, ?_⟩
    rw [h2]
    have : 0 < 57600 / toU16 num := Nat.div_pos h1 h0
    omega

/-- With a rate of 100 stored, `g` runs `go`; the period is 576. -/
theorem go_guard_witness :
    demoState.stepsPerSec ≠ 0 ∧
    main_cmd 65535 demoState .g = (go demoState, Reply.none) ∧
    running (go demoState) ∧ (go demoState).OCR1A = 576 :=
  ⟨by decide, (go_guard 65535 demoState).1 (by decide)⟩

/-! ## Reaching the top of the position range -/

/-- The state `demoState` is reached from start-up with all sense lines high
by the commands `s 100` and `n 3`. -/
theorem demoState_reachable : Reachable 65535 demoState :=
  ⟨112, [.cmd (.s 100), .cmd (.n 3)], by decide⟩

theorem fires_succ_left (s : State) (k : Nat) :
    fires (k + 1) s = fires k (TIMER1_COMPA_vect s) := by
  have h := fires_add s 1 k
  rw [Nat.add_comm] at h
  exact h

theorem run_timers (dz : Nat) : ∀ (k : Nat) (s : State),
    run dz s (List.replicate k Event.timer) = fires k s := by
  intro k
  induction k with
  | zero => intro s; rfl
  | succ k ih =>
    intro s
    rw [fires_succ_left]
    show run dz (step dz s Event.timer) (List.replicate k Event.timer) = _
    rw [ih]
    rfl

theorem run_append (dz : Nat) (s : State) (es fs : List Event) :
    run dz s (es ++ fs) = run dz (run dz s es) fs := by
  unfold run
  rw [List.foldl_append]

/-- While steps are left and the step output rests low, `k` firings change
the step count, the pulse count and the position and nothing else. -/
theorem fires_pulsing_state (s : State) (hr : s.stepsRequested < 65536)
    (hp : InInt16 s.position) (hport : cbi (sbi s.PORTA STEP_PIN) STEP_PIN = s.PORTA) :
    ∀ k, s.stepsDone + k ≤ s.stepsRequested →
      fires k s =
        { s with
          stepsDone := s.stepsDone + k
          pulses := s.pulses + k
          position := wrap16 (s.position + dirSign s * k) } := by
  intro k
  induction k with
  | zero =>
    intro _
    simp [fires, wrap16_id _ hp]
  | succ k ih =>
    intro hk
    have ih1 := ih (by omega)
    obtain ⟨_, _, h3, _⟩ := fires_pulsing s hr hp (k + 1) hk
    have hlt : (fires k s).stepsDone < (fires k s).stepsRequested := by
      rw [ih1]
      show s.stepsDone + k < s.stepsRequested
      omega
    have hfire : fires (k + 1) s = TIMER1_COMPA_vect (fires k s) := rfl
    rw [hfire, timer_pulse _ hlt] at h3 ⊢
    rw [ih1] at h3 ⊢
    have e1 : (s.stepsDone + k + 1) % 65536 = s.stepsDone + (k + 1) := by omega
    have e2 : s.pulses + k + 1 = s.pulses + (k + 1) := by omega
    simp only [hport, e1, e2] at h3 ⊢
    rw [← h3]

/-- The state `topState` is reached from start-up: rate 100, 32767 steps
requested, go, 32767 pulses and the firing that stops, then one step
requested. -/
theorem topState_reachable : Reachable 65535 topState := by
  refine ⟨0, [.cmd (.s 100), .cmd (.n 32767), .cmd .g] ++ List.replicate 32768 .timer ++
    [.cmd (.n 1)], ?_⟩
  rw [run_append, run_append, run_timers]
  have hfire : ∀ s, fires 32768 s = TIMER1_COMPA_vect (fires 32767 s) := fun _ => rfl
  rw [hfire, fires_pulsing_state _ (by decide) (by decide) (by decide) 32767 (by decide)]
  decide

/-- The state `bottomState` is reached from start-up: direction reverse, rate
100, 32767 steps requested, go, 32767 pulses and the firing that stops, then
two steps requested, go, and one pulse. -/
theorem bottomState_reachable : Reachable 65535 bottomState := by
  refine ⟨0, [.cmd (.d 'r'), .cmd (.s 100), .cmd (.n 32767), .cmd .g] ++
    List.replicate 32768 .timer ++ [.cmd (.n 2), .cmd .g, .timer], ?_⟩
  rw [run_append, run_append, run_timers]
  have hfire : ∀ s, fires 32768 s = TIMER1_COMPA_vect (fires 32767 s) := fun _ => rfl
  rw [hfire, fires_pulsing_state _ (by decide) (by decide) (by decide) 32767 (by decide)]
  decide

/-! ## Start-up -/

/-- C18 fails on the code: `initialize` sets `stepsPerSec = 0` and in the
next statement computes `ticksPerStep = f_timer / stepsPerSec`, so at every
start-up a division with divisor zero is evaluated. -/
theorem startup_divides_by_zero (dz pina : Nat) :
    reset.divZero = false ∧
    (udiv dz ((F_CPU / 256) % 65536) 0).2 = true ∧
    (initialise dz pina reset).stepsPerSec = 0 ∧
    (initialise dz pina reset).divZero = true := by
  rw [initialise_eq]
  refine ⟨rfl, ?_, rfl, ?_⟩
  · simp [udiv]
  · simp [udiv, reset]

/-! ## What the operations leave alone -/

theorem wrap16_step_ne (p d : Int) (hd : d = 1 ∨ d = -1) : wrap16 (p + d) ≠ p := by
  unfold wrap16
  rcases hd with rfl | rfl <;> omega

theorem dirSign_unit (s : State) : dirSign s = 1 ∨ dirSign s = -1 := by
  unfold dirSign
  by_cases h : s.direction = 0
  · right; simp [h]
  · left; simp [h]

/-- Every command but `C` leaves the position as it was. -/
theorem exec_position (dz : Nat) (s : State) (c : Cmd) (hc : c ≠ Cmd.C) :
    (exec dz s c).position = s.position := by
  cases c with
  | C => exact absurd rfl hc
  | d temp => rw [exec_d]; split_ifs <;> rfl
  | g => rw [exec_g]; split_ifs <;> rfl
  | n num => rw [exec_n]
  | s num => rw [exec_s]
  | other => rw [exec_other]
  | _ => rfl

/-- The command `g` with a non-zero rate stored runs `go`. -/
theorem exec_g_pos (dz : Nat) (t : State) (h : t.stepsPerSec ≠ 0) :
    exec dz t .g = go t := by
  rw [exec_g]
  simp only [ne_eq, h, not_false_eq_true, if_true]

theorem pcint_position (pina : Nat) (s : State) :
    (PCINT0_vect pina s).position = s.position := by
  unfold PCINT0_vect
  simp only
  split_ifs <;> rfl

/-- Where the position is left alone: by every command but `C`, by `go`, by
`stopMotor`, by a timer firing with `stepsDone ≥ stepsRequested` and by every
invocation of the sense-line monitor; a timer firing with
`stepsDone < stepsRequested` moves it by one unit. -/
theorem position_frame_rest (dz : Nat) (s : State) :
    (∀ c : Cmd, c ≠ Cmd.C → (exec dz s c).position = s.position) ∧
    (go s).position = s.position ∧
    (stopMotor s).position = s.position ∧
    (¬ s.stepsDone < s.stepsRequested → (TIMER1_COMPA_vect s).position = s.position) ∧
    (∀ pina : Nat, (PCINT0_vect pina s).position = s.position) ∧
    (s.stepsDone < s.stepsRequested →
      (TIMER1_COMPA_vect s).position = wrap16 (s.position + dirSign s) ∧
      (TIMER1_COMPA_vect s).position ≠ s.position) := by
  refine ⟨exec_position dz s, rfl, rfl, ?_, fun pina => pcint_position pina s, ?_⟩
  · intro h
    rw [timer_done s h]
    rfl
  · intro h
    rw [timer_pulse s h]
    exact ⟨rfl, wrap16_step_ne _ _ (dirSign_unit s)⟩

/-- C16 fails on the code.  The command `C` copies its 58-byte prompt into
the 48 bytes of `strbuf`, and the bytes `xi` of `exit` land on `position`:
after start-up, rate 100, three steps requested and `g`, with no pulse
emitted and the position at 0, the command `C` leaves the position at 27000
(and home at 25888). -/
theorem tuning_text_overwrites_position :
    (run 65535 (initialise 65535 112 reset) [.cmd (.s 100), .cmd (.n 3), .cmd .g]).position = 0 ∧
    (run 65535 (initialise 65535 112 reset) [.cmd (.s 100), .cmd (.n 3), .cmd .g]).pulses = 0 ∧
    (run 65535 (initialise 65535 112 reset) tunedEvents).pulses = 0 ∧
    (run 65535 (initialise 65535 112 reset) tunedEvents).position = 27000 ∧
    (run 65535 (initialise 65535 112 reset) tunedEvents).home = 25888 :=
  ⟨by decide, by decide, by decide, by decide, by decide⟩

/-- C19: `stopMotor` zeroes the in-flight target `stepsRequested` and leaves
`nsteps`, `stepsDone`, the position, home, the direction and the rate as they
were, so a following `g` with a non-zero rate starts the motion again with
`stepsRequested` equal to the count last entered with `n` and
`stepsDone = 0`. -/
theorem stop_keeps_request (dz : Nat) (s : State) :
    (stopMotor s).stepsRequested = 0 ∧
    (stopMotor s).nsteps = s.nsteps ∧
    (stopMotor s).stepsDone = s.stepsDone ∧
    (stopMotor s).position = s.position ∧
    (stopMotor s).home = s.home ∧
    (stopMotor s).direction = s.direction ∧
    (stopMotor s).stepsPerSec = s.stepsPerSec ∧
    (stopMotor s).ticksPerStep = s.ticksPerStep ∧
    (s.stepsPerSec ≠ 0 →
      (exec dz (stopMotor s) .g).stepsRequested = s.nsteps ∧
      (exec dz (stopMotor s) .g).stepsDone = 0 ∧
      running (exec dz (stopMotor s) .g)) ∧
    (s.stepsPerSec ≠ 0 → ∀ num : Int,
      (exec dz (exec dz (exec dz s (.n num)) .space) .g).stepsRequested = toU16 num ∧
      (exec dz (exec dz (exec dz s (.n num)) .space) .g).stepsDone = 0 ∧
      running (exec dz (exec dz (exec dz s (.n num)) .space) .g)) := by
  refine ⟨rfl, rfl, rfl, rfl, rfl, rfl, rfl, rfl, ?_, ?_⟩
  · intro h
    rw [exec_g_pos dz (stopMotor s) h]
    exact ⟨rfl, rfl, by simp [running, go]⟩
  · intro h num
    rw [exec_n, exec_space,
      exec_g_pos dz (stopMotor { s with nsteps := toU16 num, stepsDone := 0 }) h]
    exact ⟨rfl, rfl, by simp [running, go]⟩

/-- A run of three stopped after two pulses starts again with three steps
requested and none done. -/
theorem stop_keeps_request_witness :
    demoRun.stepsPerSec ≠ 0 ∧ demoRun.nsteps = 3 ∧ demoRun.stepsDone = 2 ∧
    (exec 65535 (stopMotor demoRun) .g).stepsRequested = 3 ∧
    (exec 65535 (stopMotor demoRun) .g).stepsDone = 0 ∧
    running (exec 65535 (stopMotor demoRun) .g) :=
  ⟨by decide, by decide, by decide,
    (stop_keeps_request 65535 demoRun).2.2.2.2.2.2.2.2.1 (by decide)⟩

/-- The monitor when the pattern read differs from the snapshot in anything
but exactly one sense bit: only the pin bookkeeping changes. -/
theorem pcint_no_single (pina : Nat) (s : State)
    (hf : (pina &&& LIMITMASK) ^^^ s.oldpina ≠ BV FLIMIT_PIN)
    (hr : (pina &&& LIMITMASK) ^^^ s.oldpina ≠ BV RLIMIT_PIN)
    (hh : (pina &&& LIMITMASK) ^^^ s.oldpina ≠ BV HOME_PIN) :
    PCINT0_vect pina s =
      { s with
        newpina := pina &&& LIMITMASK
        bufpina := (pina &&& LIMITMASK) ^^^ s.oldpina
        oldpina := pina &&& LIMITMASK } := by
  unfold PCINT0_vect
  simp only [hf, hr, hh, if_false]

/-- C17: when the pattern read differs from the snapshot in two or in all
three of the sense bits, the monitor calls neither `stopMotor` nor records
home: the state is as it was except that the snapshot is the new pattern
(and the monitor's scratch variables `newpina` and `bufpina` hold the pattern
and the change). -/
theorem multi_bit_unhandled (pina : Nat) (s : State)
    (hx : (pina &&& LIMITMASK) ^^^ s.oldpina = BV FLIMIT_PIN ||| BV HOME_PIN ∨
      (pina &&& LIMITMASK) ^^^ s.oldpina = BV FLIMIT_PIN ||| BV RLIMIT_PIN ∨
      (pina &&& LIMITMASK) ^^^ s.oldpina = BV HOME_PIN ||| BV RLIMIT_PIN ∨
      (pina &&& LIMITMASK) ^^^ s.oldpina = BV FLIMIT_PIN ||| BV HOME_PIN ||| BV RLIMIT_PIN) :
    PCINT0_vect pina s =
      { s with
        newpina := pina &&& LIMITMASK
        bufpina := (pina &&& LIMITMASK) ^^^ s.oldpina
        oldpina := pina &&& LIMITMASK } := by
  apply pcint_no_single <;> rcases hx with h | h | h | h <;> rw [h] <;> decide

/-- Two firings into a run, the forward limit and the home line going low
together do not stop the motor. -/
theorem multi_bit_unhandled_witness :
    (64 &&& LIMITMASK) ^^^ demoRun.oldpina = BV FLIMIT_PIN ||| BV HOME_PIN ∧
    (64 &&& LIMITMASK) &&& BV FLIMIT_PIN = 0 ∧
    running demoRun ∧ running (PCINT0_vect 64 demoRun) ∧
    PCINT0_vect 64 demoRun =
      { demoRun with
        newpina := 64 &&& LIMITMASK
        bufpina := (64 &&& LIMITMASK) ^^^ demoRun.oldpina
        oldpina := 64 &&& LIMITMASK } :=
  ⟨by decide, by decide, by decide, by decide,
    multi_bit_unhandled 64 demoRun (Or.inl (by decide))⟩

/-! ## Running with nothing requested -/

/-- C11 as stated fails: after start-up, a rate of 100 and `g` with no count
entered (`nsteps = 0`), the controller is running with
`stepsRequested = 0`. -/
theorem running_with_zero_request :
    Reachable 65535 (run 65535 (initialise 65535 112 reset) [.cmd (.s 100), .cmd .g]) ∧
    (run 65535 (initialise 65535 112 reset) [.cmd (.s 100)]).nsteps = 0 ∧
    running (run 65535 (initialise 65535 112 reset) [.cmd (.s 100), .cmd .g]) ∧
    (run 65535 (initialise 65535 112 reset) [.cmd (.s 100), .cmd .g]).stepsRequested = 0 :=
  ⟨⟨112, [.cmd (.s 100), .cmd .g], rfl⟩, by decide, by decide, by decide⟩

theorem requestInv_stopMotor (s : State) : RequestInv (stopMotor s) := by
  intro hrun
  exact absurd rfl hrun

theorem requestInv_timer (s : State) (h : RequestInv s) :
    RequestInv (TIMER1_COMPA_vect s) := by
  by_cases hlt : s.stepsDone < s.stepsRequested
  · rw [timer_pulse s hlt]
    exact h
  · rw [timer_done s hlt]
    exact requestInv_stopMotor s

theorem requestInv_pcint (pina : Nat) (s : State) (h : RequestInv s) :
    RequestInv (PCINT0_vect pina s) := by
  unfold PCINT0_vect
  simp only
  split_ifs <;> intro hrun <;> first
    | exact absurd rfl hrun
    | exact h hrun

/-- A command keeps a positive request while running, provided that a `g`
that is accepted comes with a count entered.  The texts of `C` and of the
unknown command leave non-zero bytes in `stepsRequested`. -/
theorem requestInv_exec (dz : Nat) (s : State) (c : Cmd) (h : RequestInv s)
    (hg : c = Cmd.g → s.stepsPerSec ≠ 0 → 0 < s.nsteps) : RequestInv (exec dz s c) := by
  cases c with
  | cr => exact h
  | space => exact requestInv_stopMotor s
  | C =>
    rw [exec_C]
    intro _
    show 0 < 8313
    omega
  | d temp =>
    rw [exec_d]
    split_ifs <;> exact h
  | g =>
    rw [exec_g]
    split_ifs with hr
    · intro _
      exact hg rfl hr
    · exact h
  | n num =>
    rw [exec_n]
    exact h
  | s num =>
    rw [exec_s]
    exact h
  | S => exact h
  | other =>
    rw [exec_other]
    intro _
    show 0 < 29554
    omega

theorem requestInv_step (dz : Nat) (s : State) (e : Event) (h : RequestInv s)
    (hg : isGo e = true → s.stepsPerSec ≠ 0 → 0 < s.nsteps)
    (hw : servedInGo e = false) : RequestInv (step dz s e) := by
  cases e with
  | cmd c =>
    refine requestInv_exec dz s c h ?_
    intro hc
    exact hg (by rw [hc]; rfl)
  | timer => exact requestInv_timer s h
  | pcint pina => exact requestInv_pcint pina s h
  | goServing hs =>
    cases hs with
    | nil =>
      rw [step_goServing_nil]
      exact requestInv_exec dz s .g h (fun _ => hg rfl)
    | cons x xs => simp [servedInGo] at hw

theorem requestInv_run (dz : Nat) (es : List Event) :
    ∀ s, RequestInv s → goWithCount dz s es → (∀ e ∈ es, servedInGo e = false) →
      RequestInv (run dz s es) := by
  induction es with
  | nil => intro s h _ _; exact h
  | cons e es ih =>
    intro s h hg hw
    obtain ⟨hg0, hrest⟩ := hg
    exact ih (step dz s e)
      (requestInv_step dz s e h hg0 (hw e (List.mem_cons_self _ _))) hrest
      (fun x hx => hw x (List.mem_cons_of_mem _ hx))

/-- C11 (as amended): in every state reached from start-up by commands, timer
firings and sense-line events in which every `g` that is accepted comes with
a count entered (`nsteps > 0`) and no handler is served inside `go` between
`sei()` and the switching on of the timer, a running controller has
`stepsRequested > 0`.  A `g` accepted with `nsteps = 0` leaves the controller
running with `stepsRequested = 0`, from every state. -/
theorem running_request (dz pina : Nat) (es : List Event)
    (hg : goWithCount dz (initialise dz pina reset) es)
    (hw : ∀ e ∈ es, servedInGo e = false)
    (hrun : running (run dz (initialise dz pina reset) es)) :
    0 < (run dz (initialise dz pina reset) es).stepsRequested ∧
    (∀ t : State, t.stepsPerSec ≠ 0 → t.nsteps = 0 →
      running (exec dz t .g) ∧ (exec dz t .g).stepsRequested = 0) := by
  constructor
  · refine requestInv_run dz es _ ?_ hg hw hrun
    intro h
    exact absurd rfl h
  · intro t ht hn
    rw [exec_g_pos dz t ht]
    exact ⟨by simp [running, go], hn⟩

/-- Two firings into a run of three, three steps are requested. -/
theorem running_request_witness :
    goWithCount 65535 (initialise 65535 112 reset) demoEvents ∧
    (∀ e ∈ demoEvents, servedInGo e = false) ∧
    running (run 65535 (initialise 65535 112 reset) demoEvents) ∧
    0 < (run 65535 (initialise 65535 112 reset) demoEvents).stepsRequested :=
  ⟨by decide, by decide, by decide,
    (running_request 65535 112 demoEvents (by decide) (by decide) (by decide)).1⟩

/-! ## The driver enable while running -/

/-- Registers that agree in bit 7 agree under the mask of the enable pin. -/
theorem sleep_bit_congr (a b : Nat) (h : a.testBit 7 = b.testBit 7) :
    a &&& BV SLEEP_PIN = b &&& BV SLEEP_PIN := by
  have h1 : BV SLEEP_PIN = 2 ^ 7 := by decide
  apply Nat.eq_of_testBit_eq
  intro i
  simp only [Nat.testBit_and, h1, Nat.testBit_two_pow]
  by_cases hi : 7 = i
  · subst hi; rw [h]
  · simp [hi]

/-- Writing the direction output leaves the driver enable alone. -/
theorem dir_write_sleep (r : Nat) :
    sbi r DIR_PIN &&& BV SLEEP_PIN = r &&& BV SLEEP_PIN ∧
    cbi r DIR_PIN &&& BV SLEEP_PIN = r &&& BV SLEEP_PIN := by
  have h1 : Nat.testBit (BV DIR_PIN) 7 = false := by decide
  have h2 : Nat.testBit (0xFF - BV DIR_PIN) 7 = true := by decide
  constructor
  · apply sleep_bit_congr
    unfold sbi
    simp [Nat.testBit_or, h1]
  · apply sleep_bit_congr
    unfold cbi
    simp [Nat.testBit_and, h2]

theorem driveInv_stopMotor (s : State) : DriveInv (stopMotor s) := by
  intro hrun
  exact absurd rfl hrun

theorem driveInv_go (s : State) : DriveInv (go s) := by
  intro _
  exact sbi_sleep_high _

theorem driveInv_timer (s : State) (h : DriveInv s) : DriveInv (TIMER1_COMPA_vect s) := by
  by_cases hlt : s.stepsDone < s.stepsRequested
  · rw [timer_pulse s hlt]
    intro hrun
    have hon := h hrun
    unfold driverOn at hon ⊢
    show cbi (sbi s.PORTA STEP_PIN) STEP_PIN &&& BV SLEEP_PIN ≠ 0
    rw [step_pulse_sleep]
    exact hon
  · rw [timer_done s hlt]
    exact driveInv_stopMotor s

theorem driveInv_pcint (pina : Nat) (s : State) (h : DriveInv s) :
    DriveInv (PCINT0_vect pina s) := by
  unfold PCINT0_vect
  simp only
  split_ifs <;> intro hrun <;> first
    | exact absurd rfl hrun
    | exact h hrun

/-- Every command but `C` keeps the driver enabled while running; `C` does so
when the controller is not running. -/
theorem driveInv_exec (dz : Nat) (s : State) (c : Cmd) (h : DriveInv s)
    (hc : c = Cmd.C → ¬ running s) : DriveInv (exec dz s c) := by
  cases c with
  | cr => exact h
  | space => exact driveInv_stopMotor s
  | C =>
    rw [exec_C]
    intro hrun
    exact absurd hrun (hc rfl)
  | d temp =>
    rw [exec_d]
    split_ifs
    · intro hrun
      have hon := h hrun
      unfold driverOn at hon ⊢
      show sbi s.PORTA DIR_PIN &&& BV SLEEP_PIN ≠ 0
      rw [(dir_write_sleep s.PORTA).1]
      exact hon
    · intro hrun
      have hon := h hrun
      unfold driverOn at hon ⊢
      show cbi s.PORTA DIR_PIN &&& BV SLEEP_PIN ≠ 0
      rw [(dir_write_sleep s.PORTA).2]
      exact hon
    · exact h
  | g =>
    rw [exec_g]
    split_ifs
    · exact driveInv_go s
    · exact h
  | n num =>
    rw [exec_n]
    exact h
  | s num =>
    rw [exec_s]
    exact h
  | S => exact h
  | other =>
    rw [exec_other]
    exact h

theorem driveInv_run (dz : Nat) (es : List Event) :
    ∀ s, DriveInv s → tuningAtRest dz s es → (∀ e ∈ es, servedInGo e = false) →
      DriveInv (run dz s es) := by
  induction es with
  | nil => intro s h _ _; exact h
  | cons e es ih =>
    intro s h ht hw
    obtain ⟨hC, hrest⟩ := ht
    have hw0 := hw e (List.mem_cons_self _ _)
    refine ih (step dz s e) ?_ hrest (fun x hx => hw x (List.mem_cons_of_mem _ hx))
    cases e with
    | cmd c =>
      refine driveInv_exec dz s c h ?_
      intro hc
      exact hC (by rw [hc])
    | timer => exact driveInv_timer s h
    | pcint pina => exact driveInv_pcint pina s h
    | goServing hs =>
      cases hs with
      | nil =>
        rw [step_goServing_nil]
        exact driveInv_exec dz s .g h (fun hc => by cases hc)
      | cons x xs => simp [servedInGo] at hw0

/-- A current-adjust pass made while running leaves the timer armed and the
driver enable low, whatever the state. -/
theorem exec_C_running (dz : Nat) (t : State) (hrun : running t) :
    running (exec dz t .C) ∧ ¬ driverOn (exec dz t .C) := by
  rw [exec_C]
  refine ⟨hrun, ?_⟩
  simp only [driverOn, ne_eq, not_not]
  exact cbi_sleep_low _

/-- A limit interrupt latched while interrupts were masked and served inside
`go`, after `sei()` and before the timer is switched on, stops the motor
there; the timer is then armed with the driver enable low and nothing
requested. -/
theorem go_window_stop :
    running (run 65535 (initialise 65535 112 reset)
      [.cmd (.s 100), .cmd (.n 3), .goServing [.pcint 96]]) ∧
    ¬ driverOn (run 65535 (initialise 65535 112 reset)
      [.cmd (.s 100), .cmd (.n 3), .goServing [.pcint 96]]) ∧
    (run 65535 (initialise 65535 112 reset)
      [.cmd (.s 100), .cmd (.n 3), .goServing [.pcint 96]]).stepsRequested = 0 := by
  decide

/-- C12 as stated fails: after start-up, rate 100, three steps requested and
`g`, a current-adjust pass `C` made during the motion leaves the timer armed
and the driver enable low. -/
theorem tuning_drops_enable :
    Reachable 65535
      (run 65535 (initialise 65535 112 reset)
        [.cmd (.s 100), .cmd (.n 3), .cmd .g, .cmd .C]) ∧
    running (run 65535 (initialise 65535 112 reset)
      [.cmd (.s 100), .cmd (.n 3), .cmd .g, .cmd .C]) ∧
    ¬ driverOn (run 65535 (initialise 65535 112 reset)
      [.cmd (.s 100), .cmd (.n 3), .cmd .g, .cmd .C]) :=
  ⟨⟨112, [.cmd (.s 100), .cmd (.n 3), .cmd .g, .cmd .C], rfl⟩, by decide, by decide⟩

/-- C12 (as amended): in every state reached from start-up by commands,
timer firings and sense-line events in which each current-adjust pass `C` is
made while the controller is not running and no handler is served inside
`go` between `sei()` and the switching on of the timer, the driver enable is
high whenever the timer is armed.  A pass `C` made while the controller is
running leaves the timer armed and the driver enable low, from every
state. -/
theorem driver_on_while_running (dz pina : Nat) (es : List Event)
    (hC : tuningAtRest dz (initialise dz pina reset) es)
    (hw : ∀ e ∈ es, servedInGo e = false)
    (hrun : running (run dz (initialise dz pina reset) es)) :
    driverOn (run dz (initialise dz pina reset) es) ∧
    (∀ t : State, running t → running (exec dz t .C) ∧ ¬ driverOn (exec dz t .C)) := by
  refine ⟨driveInv_run dz es _ ?_ hC hw hrun, exec_C_running dz⟩
  intro h
  exact absurd rfl h

/-- Two firings into a run of three the driver is enabled. -/
theorem driver_on_while_running_witness :
    tuningAtRest 65535 (initialise 65535 112 reset) demoEvents ∧
    (∀ e ∈ demoEvents, servedInGo e = false) ∧
    running (run 65535 (initialise 65535 112 reset) demoEvents) ∧
    driverOn (run 65535 (initialise 65535 112 reset) demoEvents) :=
  ⟨by decide, by decide, by decide,
    (driver_on_while_running 65535 112 demoEvents (by decide) (by decide) (by decide)).1⟩

/-! ## Interrupts after a stop from the foreground -/

/-- With the interrupt enable cleared no handler is served. -/
theorem serve_masked (handler : State → State) (s : State) (h : s.iflag = false) :
    serve handler s = s := by
  unfold serve
  simp [h]

/-- A command other than an accepted `g` leaves a cleared interrupt enable
cleared. -/
theorem exec_iflag (dz : Nat) (s : State) (c : Cmd) (h : s.iflag = false)
    (hc : c = Cmd.g → s.stepsPerSec = 0) : (exec dz s c).iflag = false := by
  cases c with
  | cr => exact h
  | space => rfl
  | C => rw [exec_C]; exact h
  | d temp => rw [exec_d]; split_ifs <;> exact h
  | g =>
    have h0 := hc rfl
    rw [exec_g]
    simp only [h0, ne_eq, not_true_eq_false, if_false]
    exact h
  | n num => rw [exec_n]; exact h
  | s num => rw [exec_s]; exact h
  | S => exact h
  | other => rw [exec_other]; exact h

theorem hwRun_masked (dz : Nat) (es : List Event) :
    ∀ s, s.iflag = false → noStart dz s es →
      (hwRun dz s es).iflag = false ∧ hwRun dz s es = run dz s (es.filter isCommand) := by
  induction es with
  | nil => intro s h _; exact ⟨h, rfl⟩
  | cons e es ih =>
    intro s h hno
    obtain ⟨hg, hrest⟩ := hno
    cases e with
    | cmd c =>
      have hc : c = Cmd.g → s.stepsPerSec = 0 := fun hc => hg (by rw [hc]; rfl)
      exact ih (exec dz s c) (exec_iflag dz s c h hc) hrest
    | goServing hs =>
      have h0 : s.stepsPerSec = 0 := hg rfl
      have hs1 : hwStep dz s (Event.goServing hs) = s := by
        simp only [hwStep, h0, ne_eq, not_true_eq_false, if_false]
        exact (PRINTLN_fits s).2.2.2.2.2.2.2.2.2.2.2.2.2.2.1
      have hs2 : step dz s (Event.goServing hs) = s := by
        simp only [step, h0, ne_eq, not_true_eq_false, if_false]
        exact (PRINTLN_fits s).2.2.2.2.2.2.2.2.2.2.2.2.2.2.1
      rw [hs1] at hrest
      have := ih s h hrest
      show (hwRun dz (hwStep dz s (Event.goServing hs)) es).iflag = false ∧
        hwRun dz (hwStep dz s (Event.goServing hs)) es
          = run dz (step dz s (Event.goServing hs)) (es.filter isCommand)
      rw [hs1, hs2]
      exact this
    | timer =>
      have hs : hwStep dz s Event.timer = s := serve_masked _ s h
      rw [hs] at hrest
      have := ih s h hrest
      show (hwRun dz (hwStep dz s Event.timer) es).iflag = false ∧
        hwRun dz (hwStep dz s Event.timer) es = run dz s (es.filter isCommand)
      rw [hs]
      exact this
    | pcint pina =>
      have hs : hwStep dz s (Event.pcint pina) = s := serve_masked _ s h
      rw [hs] at hrest
      have := ih s h hrest
      show (hwRun dz (hwStep dz s (Event.pcint pina)) es).iflag = false ∧
        hwRun dz (hwStep dz s (Event.pcint pina)) es = run dz s (es.filter isCommand)
      rw [hs]
      exact this

/-- C20: `stopMotor` clears the global interrupt enable and start-up never
sets it (it is clear after reset); only `go` sets it.  So from a state with
the flag clear, as after start-up or after the space command, under every
sequence of events in which no `g` is accepted the flag stays clear and no
handler is served: the state is the one the commands alone produce, with no
limit stop and no home capture. -/
theorem masked_until_go (dz pina : Nat) (s : State) :
    (stopMotor s).iflag = false ∧
    (exec dz s .space).iflag = false ∧
    (initialise dz pina s).iflag = s.iflag ∧
    (initialise dz pina reset).iflag = false ∧
    (go s).iflag = true ∧
    (∀ es : List Event, s.iflag = false → noStart dz s es →
      (hwRun dz s es).iflag = false ∧
      hwRun dz s es = run dz s (es.filter isCommand)) :=
  ⟨rfl, rfl, rfl, rfl, rfl, fun es h hno => hwRun_masked dz es s h hno⟩

/-- After start-up with no rate stored, sense-line changes and a timer flag
do nothing: the home line going high records no home. -/
theorem masked_until_go_witness :
    (initialise 65535 112 reset).iflag = false ∧
    noStart 65535 (initialise 65535 112 reset) idleEvents ∧
    (hwRun 65535 (initialise 65535 112 reset) idleEvents).iflag = false ∧
    hwRun 65535 (initialise 65535 112 reset) idleEvents
      = run 65535 (initialise 65535 112 reset) (idleEvents.filter isCommand) :=
  have hno : noStart 65535 (initialise 65535 112 reset) idleEvents := by decide
  ⟨rfl, hno, (masked_until_go 65535 112 (initialise 65535 112 reset)).2.2.2.2.2
    idleEvents rfl hno⟩

/-! ## The numeric parser -/

/-- A line within the guard: the loop stores the characters and the carriage
return at the start of `strBuf`, leaves the rest of the memory as it was, and
returns what `atoi` makes of that. -/
theorem recv_line (mem body rest : List Char) (hm : 7 ≤ mem.length)
    (hcr : ∀ c ∈ body, c ≠ '\r')
    (hlen : body.length ≤ 5 ∨
      (body.length ≤ 6 ∧ (body.head? = some '+' ∨ body.head? = some '-'))) :
    serial0RecvNum mem (body ++ '\r' :: rest) =
      some { value := atoi (body ++ '\r' :: mem.drop (body.length + 1))
             rest := rest
             writes := (List.range (body.length + 1)).reverse
             strbufNul := some body.length } := by
  obtain ⟨m0, m1, m2, m3, m4, m5, m6, tl, rfl⟩ :
      ∃ m0 m1 m2 m3 m4 m5 m6 tl, mem = m0 :: m1 :: m2 :: m3 :: m4 :: m5 :: m6 :: tl := by
    rcases mem with _ | ⟨m0, _ | ⟨m1, _ | ⟨m2, _ | ⟨m3, _ | ⟨m4, _ | ⟨m5, _ | ⟨m6, tl⟩⟩⟩⟩⟩⟩⟩ <;>
      simp at hm
    exact ⟨_, _, _, _, _, _, _, _, rfl⟩
  rcases body with _ | ⟨a, _ | ⟨b, _ | ⟨c, _ | ⟨d, _ | ⟨e, _ | ⟨f, _ | ⟨g, tl2⟩⟩⟩⟩⟩⟩⟩
  · simp [serial0RecvNum, recvLoop, List.range, List.range.loop]
  · simp only [List.mem_cons, List.mem_singleton, forall_eq_or_imp, List.not_mem_nil] at hcr
    simp [serial0RecvNum, recvLoop, List.range, List.range.loop, hcr]
  · simp only [List.mem_cons, forall_eq_or_imp, List.not_mem_nil] at hcr
    simp [serial0RecvNum, recvLoop, List.range, List.range.loop, hcr]
  · simp only [List.mem_cons, forall_eq_or_imp, List.not_mem_nil] at hcr
    simp [serial0RecvNum, recvLoop, List.range, List.range.loop, hcr]
  · simp only [List.mem_cons, forall_eq_or_imp, List.not_mem_nil] at hcr
    simp [serial0RecvNum, recvLoop, List.range, List.range.loop, hcr]
  · simp only [List.mem_cons, forall_eq_or_imp, List.not_mem_nil] at hcr
    simp [serial0RecvNum, recvLoop, List.range, List.range.loop, hcr]
  · simp only [List.mem_cons, forall_eq_or_imp, List.not_mem_nil] at hcr
    have hs : a = '+' ∨ a = '-' := by simpa using hlen
    rcases hs with rfl | rfl <;>
      simp [serial0RecvNum, recvLoop, List.range, List.range.loop, hcr]
  · exfalso
    simp at hlen

theorem decimalValue_nil : decimalValue [] = 0 := by
  simp [decimalValue]

theorem decimalValue_cons (d : Char) (ds : List Char) :
    decimalValue (d :: ds) = (d.toNat - 48) * 10 ^ ds.length + decimalValue ds := by
  unfold decimalValue
  rw [List.reverse_cons, List.map_append, Nat.ofDigits_append]
  simp [Nat.ofDigits_singleton]
  ring

/-- The digit loop on a string of digits that ends at a character that is
not a digit. -/
theorem atoiDigits_digits (ds : List Char) (c : Char) (tl : List Char)
    (hc : isdigit c = false) :
    ∀ acc, (∀ d ∈ ds, isdigit d = true) →
      atoiDigits acc (ds ++ c :: tl) = acc * 10 ^ ds.length + decimalValue ds := by
  induction ds with
  | nil =>
    intro acc _
    simp [atoiDigits, hc, decimalValue_nil]
  | cons d ds ih =>
    intro acc hd
    have hd0 : isdigit d = true := hd d (List.mem_cons_self _ _)
    have hds : ∀ x ∈ ds, isdigit x = true := fun x hx => hd x (List.mem_cons_of_mem _ hx)
    show atoiDigits acc (d :: (ds ++ c :: tl)) = _
    simp only [atoiDigits, hd0, if_true]
    rw [ih _ hds, decimalValue_cons]
    simp only [List.length_cons, pow_succ]
    ring

/-- A digit is neither white space nor a sign. -/
theorem isdigit_plain (c : Char) (h : isdigit c = true) :
    isspace c = false ∧ c ≠ '+' ∧ c ≠ '-' ∧ c ≠ '\r' := by
  simp only [isdigit, Bool.and_eq_true, decide_eq_true_eq] at h
  refine ⟨?_, ?_, ?_, ?_⟩
  · simp only [isspace, Bool.or_eq_false_iff, decide_eq_false_iff_not, Bool.and_eq_false_iff,
      not_le]
    constructor
    · rintro rfl
      exact absurd h.1 (by decide)
    · right; omega
  · rintro rfl; exact absurd h.1 (by decide)
  · rintro rfl; exact absurd h.1 (by decide)
  · rintro rfl; exact absurd h.1 (by decide)

/-- `atoi` on an unsigned string of digits that ends at a carriage return. -/
theorem atoi_unsigned (ds tl : List Char) (hd : ∀ d ∈ ds, isdigit d = true) (hne : ds ≠ []) :
    atoi (ds ++ '\r' :: tl) = wrap16 (decimalValue ds) := by
  obtain ⟨d, ds1, rfl⟩ := List.exists_cons_of_ne_nil hne
  obtain ⟨h1, h2, h3, _⟩ := isdigit_plain d (hd d (List.mem_cons_self _ _))
  show atoi (d :: (ds1 ++ '\r' :: tl)) = _
  simp only [atoi, h1, h2, h3, if_false, Bool.false_eq_true]
  have h := atoiDigits_digits (d :: ds1) '\r' tl (by decide) 0 hd
  simp only [List.cons_append, zero_mul, zero_add] at h
  rw [h]

/-- `atoi` on a signed string of digits that ends at a carriage return. -/
theorem atoi_signed (ds tl : List Char) (hd : ∀ d ∈ ds, isdigit d = true) :
    atoi ('+' :: ds ++ '\r' :: tl) = wrap16 (decimalValue ds) ∧
    atoi ('-' :: ds ++ '\r' :: tl) = wrap16 (-(decimalValue ds : Int)) := by
  have h := atoiDigits_digits ds '\r' tl (by decide) 0 hd
  simp only [zero_mul, zero_add] at h
  have hp : isspace '+' = false := by decide
  have hm : isspace '-' = false := by decide
  have hne : ('-' : Char) ≠ '+' := by decide
  constructor
  · show atoi ('+' :: (ds ++ '\r' :: tl)) = _
    simp only [atoi, hp, if_true, if_false, Bool.false_eq_true]
    rw [h]
  · show atoi ('-' :: (ds ++ '\r' :: tl)) = _
    simp only [atoi, hm, hne, if_true, if_false, Bool.false_eq_true]
    rw [h]

/-- C13 as stated fails: the six-character unsigned argument `000100` is
rejected at its sixth character; the call returns 0 and leaves the carriage
return unread.  The same digits in five characters are accepted. -/
theorem six_unsigned_rejected :
    serial0RecvNum staleBuf ['0', '0', '0', '1', '0', '0', '\r'] =
      some { value := 0, rest := ['\r'], writes := [5, 4, 3, 2, 1, 0], strbufNul := none } ∧
    decimalValue ['0', '0', '0', '1', '0', '0'] = 100 ∧
    (serial0RecvNum staleBuf ['0', '0', '1', '0', '0', '\r']).map RecvNum.value = some 100 := by
  refine ⟨by decide, by decide, by decide⟩

/-- C13 (as amended): a numeric argument of one to five decimal digits,
alone or after a leading `+` or `-` (so at most five characters unsigned and
at most six signed), with its value in the 16-bit signed range and ended by a
carriage return, makes `serial0RecvNum` return that decimal value, whatever
the buffer held before, and read the line up to and including the carriage
return. -/
theorem numeric_argument (mem ds rest : List Char) (hm : 7 ≤ mem.length)
    (hd : ∀ c ∈ ds, isdigit c = true) (hne : ds ≠ []) (hlen : ds.length ≤ 5) :
    (decimalValue ds ≤ 32767 →
      ∃ r, serial0RecvNum mem (ds ++ '\r' :: rest) = some r ∧
        r.value = decimalValue ds ∧ r.rest = rest) ∧
    (decimalValue ds ≤ 32767 →
      ∃ r, serial0RecvNum mem ('+' :: ds ++ '\r' :: rest) = some r ∧
        r.value = decimalValue ds ∧ r.rest = rest) ∧
    (decimalValue ds ≤ 32768 →
      ∃ r, serial0RecvNum mem ('-' :: ds ++ '\r' :: rest) = some r ∧
        r.value = -(decimalValue ds : Int) ∧ r.rest = rest) := by
  have hcr : ∀ c ∈ ds, c ≠ '\r' := fun c hc => (isdigit_plain c (hd c hc)).2.2.2
  refine ⟨?_, ?_, ?_⟩
  · intro hv
    refine ⟨_, recv_line mem ds rest hm hcr (Or.inl hlen), ?_, rfl⟩
    show atoi (ds ++ '\r' :: _) = _
    rw [atoi_unsigned ds _ hd hne]
    apply wrap16_id
    unfold InInt16
    omega
  · intro hv
    have hcr2 : ∀ c ∈ '+' :: ds, c ≠ '\r' := by
      intro c hc
      rcases List.mem_cons.mp hc with rfl | h
      · decide
      · exact hcr c h
    have hl : ('+' :: ds).length ≤ 5 ∨ (('+' :: ds).length ≤ 6 ∧
        (('+' :: ds).head? = some '+' ∨ ('+' :: ds).head? = some '-')) := by
      right
      exact ⟨by simp only [List.length_cons]; omega, Or.inl rfl⟩
    refine ⟨_, recv_line mem ('+' :: ds) rest hm hcr2 hl, ?_, rfl⟩
    show atoi ('+' :: ds ++ '\r' :: _) = _
    rw [(atoi_signed ds _ hd).1]
    apply wrap16_id
    unfold InInt16
    omega
  · intro hv
    have hcr2 : ∀ c ∈ '-' :: ds, c ≠ '\r' := by
      intro c hc
      rcases List.mem_cons.mp hc with rfl | h
      · decide
      · exact hcr c h
    have hl : ('-' :: ds).length ≤ 5 ∨ (('-' :: ds).length ≤ 6 ∧
        (('-' :: ds).head? = some '+' ∨ ('-' :: ds).head? = some '-')) := by
      right
      exact ⟨by simp only [List.length_cons]; omega, Or.inr rfl⟩
    refine ⟨_, recv_line mem ('-' :: ds) rest hm hcr2 hl, ?_, rfl⟩
    show atoi ('-' :: ds ++ '\r' :: _) = _
    rw [(atoi_signed ds _ hd).2]
    apply wrap16_id
    unfold InInt16
    omega

/-- The argument `-32768` typed over a used buffer is read as -32768. -/
theorem numeric_argument_witness :
    7 ≤ staleBuf.length ∧ (∀ c ∈ ['3', '2', '7', '6', '8'], isdigit c = true) ∧
    ['3', '2', '7', '6', '8'] ≠ [] ∧ ['3', '2', '7', '6', '8'].length ≤ 5 ∧
    decimalValue ['3', '2', '7', '6', '8'] ≤ 32768 ∧
    ∃ r, serial0RecvNum staleBuf ('-' :: ['3', '2', '7', '6', '8'] ++ '\r' :: ['g']) = some r ∧
      r.value = -(decimalValue ['3', '2', '7', '6', '8'] : Int) ∧ r.rest = ['g'] :=
  ⟨by decide, by decide, by decide, by decide, by decide,
    (numeric_argument staleBuf ['3', '2', '7', '6', '8'] ['g'] (by decide) (by decide)
      (by decide) (by decide)).2.2 (by decide)⟩

theorem mem_seven (mem : List Char) (hm : 7 ≤ mem.length) :
    ∃ m0 m1 m2 m3 m4 m5 m6 tl, mem = m0 :: m1 :: m2 :: m3 :: m4 :: m5 :: m6 :: tl := by
  rcases mem with _ | ⟨m0, _ | ⟨m1, _ | ⟨m2, _ | ⟨m3, _ | ⟨m4, _ | ⟨m5, _ | ⟨m6, tl⟩⟩⟩⟩⟩⟩⟩ <;>
    simp at hm
  exact ⟨_, _, _, _, _, _, _, _, rfl⟩

/-- Six characters without a carriage return, the first of them not a sign:
the call returns 0 at the sixth. -/
theorem recv_overflow_unsigned (mem : List Char) (a b c d e f : Char) (rest : List Char)
    (hm : 7 ≤ mem.length) (hp : a ≠ '+') (hn : a ≠ '-')
    (hcr : a ≠ '\r' ∧ b ≠ '\r' ∧ c ≠ '\r' ∧ d ≠ '\r' ∧ e ≠ '\r' ∧ f ≠ '\r') :
    serial0RecvNum mem (a :: b :: c :: d :: e :: f :: rest) =
      some { value := 0, rest := rest, writes := [5, 4, 3, 2, 1, 0], strbufNul := none } := by
  obtain ⟨m0, m1, m2, m3, m4, m5, m6, tl, rfl⟩ := mem_seven mem hm
  simp [serial0RecvNum, recvLoop, hcr, hp, hn]

/-- Seven characters without a carriage return, the first of them a sign:
the call returns 0 at the seventh. -/
theorem recv_overflow_signed (mem : List Char) (a b c d e f g : Char) (rest : List Char)
    (hm : 7 ≤ mem.length) (hs : a = '+' ∨ a = '-')
    (hcr : b ≠ '\r' ∧ c ≠ '\r' ∧ d ≠ '\r' ∧ e ≠ '\r' ∧ f ≠ '\r' ∧ g ≠ '\r') :
    serial0RecvNum mem (a :: b :: c :: d :: e :: f :: g :: rest) =
      some { value := 0, rest := rest, writes := [6, 5, 4, 3, 2, 1, 0], strbufNul := none } := by
  obtain ⟨m0, m1, m2, m3, m4, m5, m6, tl, rfl⟩ := mem_seven mem hm
  rcases hs with rfl | rfl <;> simp [serial0RecvNum, recvLoop, hcr]

/-- C14: when no carriage return comes within the first 7 characters, or
within the first 6 when the first character is not a sign, `serial0RecvNum`
returns 0, has read no more than 7 characters (7 after a sign, 6 otherwise)
and has written only indices below 7 of its buffer. -/
theorem overflow_guard (mem input : List Char) (hm : 7 ≤ mem.length) :
    (7 ≤ input.length → (∀ c ∈ input.take 7, c ≠ '\r') →
      ∃ r, serial0RecvNum mem input = some r ∧ r.value = 0 ∧
        (r.rest = input.drop 6 ∨ r.rest = input.drop 7) ∧
        input.length - r.rest.length ≤ 7 ∧
        ∀ j ∈ r.writes, j < 7) ∧
    (6 ≤ input.length → input.head? ≠ some '+' → input.head? ≠ some '-' →
      (∀ c ∈ input.take 6, c ≠ '\r') →
      ∃ r, serial0RecvNum mem input = some r ∧ r.value = 0 ∧
        r.rest = input.drop 6 ∧
        input.length - r.rest.length ≤ 7 ∧
        ∀ j ∈ r.writes, j < 7) := by
  constructor
  · intro hlen hcr
    rcases input with _ | ⟨a, _ | ⟨b, _ | ⟨c, _ | ⟨d, _ | ⟨e, _ | ⟨f, _ | ⟨g, rest⟩⟩⟩⟩⟩⟩⟩ <;>
      simp at hlen
    simp only [List.take, List.mem_cons, forall_eq_or_imp, List.not_mem_nil] at hcr
    obtain ⟨ha, hb, hc, hd, he, hf, hg, _⟩ := hcr
    by_cases hs : a = '+' ∨ a = '-'
    · refine ⟨_, recv_overflow_signed mem a b c d e f g rest hm hs ⟨hb, hc, hd, he, hf, hg⟩,
        rfl, Or.inr rfl, ?_, ?_⟩
      · simp only [List.length_cons]; omega
      · intro j hj
        simp at hj
        omega
    · have hp : a ≠ '+' := fun h => hs (Or.inl h)
      have hn : a ≠ '-' := fun h => hs (Or.inr h)
      refine ⟨_, recv_overflow_unsigned mem a b c d e f (g :: rest) hm hp hn
        ⟨ha, hb, hc, hd, he, hf⟩, rfl, Or.inl rfl, ?_, ?_⟩
      · simp only [List.length_cons]; omega
      · intro j hj
        simp at hj
        omega
  · intro hlen hp hn hcr
    rcases input with _ | ⟨a, _ | ⟨b, _ | ⟨c, _ | ⟨d, _ | ⟨e, _ | ⟨f, rest⟩⟩⟩⟩⟩⟩ <;>
      simp at hlen
    simp only [List.take, List.mem_cons, forall_eq_or_imp, List.not_mem_nil] at hcr
    obtain ⟨ha, hb, hc, hd, he, hf, _⟩ := hcr
    have hp2 : a ≠ '+' := fun h => hp (by rw [h]; rfl)
    have hn2 : a ≠ '-' := fun h => hn (by rw [h]; rfl)
    refine ⟨_, recv_overflow_unsigned mem a b c d e f rest hm hp2 hn2
      ⟨ha, hb, hc, hd, he, hf⟩, rfl, rfl, ?_, ?_⟩
    · simp only [List.length_cons]; omega
    · intro j hj
      simp at hj
      omega

/-- Eight digits after a sign: the call gives up at the seventh character. -/
theorem overflow_guard_witness :
    7 ≤ staleBuf.length ∧ 7 ≤ ['+', '2', '3', '4', '5', '6', '7', '8'].length ∧
    (∀ c ∈ ['+', '2', '3', '4', '5', '6', '7', '8'].take 7, c ≠ '\r') ∧
    ∃ r, serial0RecvNum staleBuf ['+', '2', '3', '4', '5', '6', '7', '8'] = some r ∧
      r.value = 0 ∧
      (r.rest = ['+', '2', '3', '4', '5', '6', '7', '8'].drop 6 ∨
        r.rest = ['+', '2', '3', '4', '5', '6', '7', '8'].drop 7) ∧
      ['+', '2', '3', '4', '5', '6', '7', '8'].length - r.rest.length ≤ 7 ∧
      ∀ j ∈ r.writes, j < 7 :=
  ⟨by decide, by decide, by decide,
    (overflow_guard staleBuf ['+', '2', '3', '4', '5', '6', '7', '8'] (by decide)).1
      (by decide) (by decide)⟩

theorem wrap16_zero : wrap16 0 = 0 ∧ wrap16 (-((0 : Nat) : Int)) = 0 := by
  constructor <;> decide

/-- The digit loop stops at once at a character that is not a digit. -/
theorem atoiDigits_stop (tl rest : List Char) (hd : ∀ d ∈ tl.head?, isdigit d = false) :
    atoiDigits 0 (tl ++ '\r' :: rest) = 0 := by
  cases tl with
  | nil => simp [atoiDigits, isdigit]
  | cons d tl =>
    have h := hd d (by simp)
    simp [atoiDigits, h]

/-- C15 fails on the code at the empty line.  The carriage return is stored
at `strBuf[0]`, the terminator of line 427 goes to the global `strbuf`, and
`atoi`, for which a carriage return is white space, goes on into what the
buffer held before: over a buffer in which an earlier call has left `142`
the empty line returns 42, over a buffer without digits it returns 0. -/
theorem bare_return_reads_stale :
    isspace '\r' = true ∧
    serial0RecvNum staleBuf ['\r'] =
      some { value := 42, rest := [], writes := [0], strbufNul := some 0 } ∧
    (serial0RecvNum ['x', 'x', 'x', 'x', 'x', 'x', 'x'] ['\r']).map RecvNum.value = some 0 := by
  refine ⟨by decide, by decide, by decide⟩

/-- White space before the digits is skipped by `atoi`: a line of a space and
`12` returns 12. -/
theorem leading_space_skipped :
    (serial0RecvNum staleBuf [' ', '1', '2', '\r']).map RecvNum.value = some 12 := by
  decide

/-- Where a malformed number does parse to 0: a line within the guard whose
first character is not white space and that does not start with an optional
sign followed by a decimal digit (its first character is no digit and no
sign, or it is a sign and no digit follows) makes `serial0RecvNum` return 0,
whatever the buffer held before. -/
theorem malformed_zero (mem rest : List Char) (c : Char) (tl : List Char)
    (hm : 7 ≤ mem.length) (hcr : ∀ x ∈ c :: tl, x ≠ '\r')
    (hlen : (c :: tl).length ≤ 5 ∨
      ((c :: tl).length ≤ 6 ∧ ((c :: tl).head? = some '+' ∨ (c :: tl).head? = some '-')))
    (hsp : isspace c = false)
    (hmal : (isdigit c = false ∧ c ≠ '+' ∧ c ≠ '-') ∨
      ((c = '+' ∨ c = '-') ∧ ∀ d ∈ tl.head?, isdigit d = false)) :
    ∃ r, serial0RecvNum mem (c :: tl ++ '\r' :: rest) = some r ∧
      r.value = 0 ∧ r.rest = rest := by
  refine ⟨_, recv_line mem (c :: tl) rest hm hcr hlen, ?_, rfl⟩
  show atoi (c :: (tl ++ '\r' :: _)) = 0
  rcases hmal with ⟨hd, hp, hn⟩ | ⟨hs, hd⟩
  · simp only [atoi, hsp, hp, hn, if_false, Bool.false_eq_true, atoiDigits, hd]
    exact wrap16_zero.1
  · rcases hs with rfl | rfl
    · simp only [atoi, hsp, if_true, if_false, Bool.false_eq_true]
      rw [atoiDigits_stop tl _ hd]
      exact wrap16_zero.1
    · have hne : ('-' : Char) ≠ '+' := by decide
      simp only [atoi, hsp, hne, if_true, if_false, Bool.false_eq_true]
      rw [atoiDigits_stop tl _ hd]
      exact wrap16_zero.2

/-- The line `-x` typed over a used buffer is read as 0. -/
theorem malformed_zero_witness :
    7 ≤ staleBuf.length ∧ (∀ x ∈ ['-', 'x'], x ≠ '\r') ∧ isspace '-' = false ∧
    ∃ r, serial0RecvNum staleBuf ('-' :: ['x'] ++ '\r' :: ['S']) = some r ∧
      r.value = 0 ∧ r.rest = ['S'] :=
  ⟨by decide, by decide, by decide,
    malformed_zero staleBuf ['S'] '-' ['x'] (by decide) (by decide) (Or.inl (by decide))
      (by decide) (Or.inr ⟨Or.inr rfl, by decide⟩)⟩

end StepperTesting
